import Mathlib

/-!
Verification development for the breezerun agent-execution pipeline.

The definitions below are shallow embeddings of the Python sources under
`backend/app`: the file-editing tool (`core/agent/tools/file_tools.py`),
the streaming buffer (`services/streaming_buffer.py`), the message
orchestrator and persistence services (`services/message_orchestrator.py`,
`services/message_persistence.py`), the agent task registry
(`api/websocket/task_registry.py`), the ReAct agent executor
(`core/agent/executor.py`) and the WebSocket chat handler
(`api/websocket/chat_handler.py`).  Machine strings are Lean `String`s,
Python dicts keyed by strings become functions into `Option` or
association lists, and exceptions become `Except`/explicit error values.
-/

/- ===================================================================
   Section 1: Python string primitives.

   `strContains s pat` models the Python expression `pat in s`,
   `pyCount s pat` models `s.count(pat)` (non-overlapping occurrences,
   left-to-right; the empty pattern counts `len(s) + 1` occurrences),
   and `pyReplaceOnce s pat new` models `s.replace(pat, new, 1)`.
   =================================================================== -/

/-- Python substring membership `pat in s` (always true for the empty
pattern, as in Python). -/
def strContains (s pat : String) : Bool :=
  decide (pat.data <:+: s.data)

/-- Occurrence counter for a non-empty pattern `p :: ps`, scanning left to
right and skipping past each match (Python `str.count` semantics). -/
def countOccAux (p : Char) (ps : List Char) (l : List Char) : Nat :=
  match l with
  | [] => 0
  | h :: t =>
    if (p :: ps).isPrefixOf (h :: t) then
      1 + countOccAux p ps (t.drop ps.length)
    else
      countOccAux p ps t
termination_by l.length
decreasing_by
  · simp only [List.length_cons, List.length_drop]
    omega
  · simp only [List.length_cons]
    omega

/-- Structural variant of `countOccAux`: instead of dropping the matched
characters it carries a skip counter, so that concrete instances reduce
inside the kernel. -/
def countOccGo (p : Char) (ps : List Char) : List Char → Nat → Nat
  | [], _ => 0
  | h :: t, 0 =>
    if (p :: ps).isPrefixOf (h :: t) then 1 + countOccGo p ps t ps.length
    else countOccGo p ps t 0
  | _ :: t, skip + 1 => countOccGo p ps t skip

/-- Python `s.count(pat)`. -/
def pyCount (s pat : String) : Nat :=
  match pat.data with
  | [] => s.length + 1
  | p :: ps => countOccGo p ps s.data 0

/-- First-occurrence replacement for a non-empty pattern `p :: ps`. -/
def replaceOnceAux (p : Char) (ps new : List Char) (l : List Char) : List Char :=
  match l with
  | [] => []
  | h :: t =>
    if (p :: ps).isPrefixOf (h :: t) then
      new ++ t.drop ps.length
    else
      h :: replaceOnceAux p ps new t

/-- Python `s.replace(pat, new, 1)` (for the empty pattern Python inserts
`new` in front of `s`). -/
def pyReplaceOnce (s pat new : String) : String :=
  match pat.data with
  | [] => new ++ s
  | p :: ps => ⟨replaceOnceAux p ps new.data s.data⟩

theorem countOccGo_eq_countOccAux (p : Char) (ps : List Char) :
    ∀ (t : List Char) (n : Nat), countOccGo p ps t n = countOccAux p ps (t.drop n) := by
  intro t
  induction t with
  | nil =>
    intro n
    simp [countOccGo, countOccAux]
  | cons h t ih =>
    intro n
    cases n with
    | zero =>
      rw [countOccGo, List.drop_zero, countOccAux]
      by_cases hpre : (p :: ps).isPrefixOf (h :: t)
      · rw [if_pos hpre, if_pos hpre, ih ps.length]
      · rw [if_neg hpre, if_neg hpre, ih 0, List.drop_zero]
    | succ n =>
      rw [countOccGo, List.drop_succ_cons, ih n]

theorem pyCount_eq_aux (s pat : String) (p : Char) (ps : List Char)
    (hp : pat.data = p :: ps) : pyCount s pat = countOccAux p ps s.data := by
  unfold pyCount
  simp only [hp]
  rw [countOccGo_eq_countOccAux, List.drop_zero]

theorem countOccAux_pos_iff (p : Char) (ps : List Char) :
    ∀ l : List Char, 0 < countOccAux p ps l ↔ (p :: ps) <:+: l := by
  intro l
  induction l using countOccAux.induct p ps with
  | case1 =>
    simp only [countOccAux]
    constructor
    · omega
    · intro h
      exact absurd (List.eq_nil_of_infix_nil h) (by simp)
  | case2 h t hpre ih =>
    rw [countOccAux, if_pos hpre]
    constructor
    · intro _
      exact (List.isPrefixOf_iff_prefix.mp hpre).isInfix
    · omega
  | case3 h t hpre ih =>
    rw [countOccAux, if_neg hpre]
    rw [ih, List.infix_cons_iff]
    constructor
    · exact Or.inr
    · rintro (hp | hi)
      · exact absurd (List.isPrefixOf_iff_prefix.mpr hp) (by simpa using hpre)
      · exact hi

theorem replaceOnceAux_of_not_infix (p : Char) (ps new : List Char) :
    ∀ l : List Char, ¬ ((p :: ps) <:+: l) → replaceOnceAux p ps new l = l := by
  intro l
  induction l with
  | nil => intro _; rfl
  | cons h t ih =>
    intro hni
    rw [replaceOnceAux]
    rw [if_neg]
    · rw [ih]
      intro hi
      exact hni (List.infix_cons_iff.mpr (Or.inr hi))
    · intro hpre
      exact hni (List.isPrefixOf_iff_prefix.mp hpre).isInfix

theorem replaceOnceAux_of_infix (p : Char) (ps new : List Char) :
    ∀ l : List Char, (p :: ps) <:+: l →
      ∃ pre suf, l = pre ++ (p :: ps) ++ suf ∧
        replaceOnceAux p ps new l = pre ++ new ++ suf := by
  intro l
  induction l with
  | nil =>
    intro h
    exact absurd (List.eq_nil_of_infix_nil h) (by simp)
  | cons h t ih =>
    intro hi
    by_cases hpre : (p :: ps).isPrefixOf (h :: t)
    · obtain ⟨r, hr⟩ := List.isPrefixOf_iff_prefix.mp hpre
      refine ⟨[], r, ?_, ?_⟩
      · simpa using hr.symm
      · rw [replaceOnceAux, if_pos hpre]
        have hdrop : r = t.drop ps.length := by
          have h2 := congrArg (List.drop (p :: ps).length) hr
          rwa [List.drop_left, List.length_cons, List.drop_succ_cons] at h2
        simp [hdrop]
    · have hti : (p :: ps) <:+: t := by
        rcases List.infix_cons_iff.mp hi with hp | hrest
        · exact absurd (List.isPrefixOf_iff_prefix.mpr hp) hpre
        · exact hrest
      obtain ⟨pre, suf, hl, hrep⟩ := ih hti
      refine ⟨h :: pre, suf, by simp [hl], ?_⟩
      rw [replaceOnceAux, if_neg hpre, hrep]
      simp

theorem replaceOnceAux_self (p : Char) (ps : List Char) (l : List Char) :
    replaceOnceAux p ps (p :: ps) l = l := by
  by_cases hi : (p :: ps) <:+: l
  · obtain ⟨pre, suf, hl, hrep⟩ := replaceOnceAux_of_infix p ps (p :: ps) l hi
    rw [hrep, ← hl]
  · exact replaceOnceAux_of_not_infix p ps (p :: ps) l hi

theorem replaceOnceAux_eq_self_iff (p : Char) (ps new : List Char)
    (l : List Char) (hi : (p :: ps) <:+: l) :
    replaceOnceAux p ps new l = l ↔ new = p :: ps := by
  constructor
  · intro heq
    obtain ⟨pre, suf, hl, hrep⟩ := replaceOnceAux_of_infix p ps new l hi
    rw [hrep] at heq
    rw [hl] at heq
    have h0 : pre ++ (new ++ suf) = pre ++ ((p :: ps) ++ suf) := by
      simpa [List.append_assoc] using heq
    exact List.append_cancel_right (List.append_cancel_left h0)
  · intro h
    subst h
    exact replaceOnceAux_self p ps l

/- ===================================================================
   Section 2: FileEditTool (core/agent/tools/file_tools.py).

   The sandbox filesystem exposed by SandboxContainer.read_file /
   write_file is modelled as a partial map from paths to file contents.
   =================================================================== -/

/-- Sandbox filesystem: path to file content. -/
abbrev FileSystem : Type := String → Option String

/-- Pointwise update of the filesystem (SandboxContainer.write_file). -/
def fsUpdate (fs : FileSystem) (p c : String) : FileSystem :=
  fun q => if q = p then some c else fs q

/-- Modelled from the spec: the module app.core.sandbox.security with its
function validate_file_path is not part of the given sources; the spec
says only that tool paths are validated for traversal, so the model
rejects exactly the paths containing a parent-directory reference. -/
def validate_file_path (path : String) : Bool :=
  !(strContains path "..")

/-- ToolResult (core/agent/tools/base.py); the metadata dict is omitted
because no claim mentions it. -/
structure ToolResultM where
  success : Bool
  output : String
  error : Option String
  deriving Repr, DecidableEq

/-- FileEditTool.execute: validate path, read the file, fail when the old
content occurs zero times or more than once, otherwise replace the first
occurrence and write back. -/
def fileEditExecute (fs : FileSystem) (path old_content new_content : String) :
    FileSystem × ToolResultM :=
  if validate_file_path path = true then
    match fs path with
    | none =>
      (fs, ⟨false, "", some ("File not found: " ++ path)⟩)
    | some current =>
      if strContains current old_content = false then
        (fs, ⟨false, "", some ("Content to replace not found in file: " ++ path)⟩)
      else if 1 < pyCount current old_content then
        (fs, ⟨false, "", some ("Content appears " ++ toString (pyCount current old_content) ++
          " times in file. Please make old_content more specific.")⟩)
      else
        (fsUpdate fs path (pyReplaceOnce current old_content new_content),
          ⟨true, "Successfully edited " ++ path, none⟩)
  else
    (fs, ⟨false, "", some ("Invalid file path: " ++ path)⟩)

theorem pyCount_pos_iff (s pat : String) :
    0 < pyCount s pat ↔ strContains s pat = true := by
  cases hp : pat.data with
  | nil =>
    unfold pyCount strContains
    simp [hp, List.nil_infix]
  | cons p ps =>
    rw [pyCount_eq_aux s pat p ps hp]
    unfold strContains
    rw [countOccAux_pos_iff]
    simp [hp]

theorem pyReplaceOnce_decomp (c old new : String) (h : 0 < pyCount c old) :
    ∃ pre suf : String, c = pre ++ old ++ suf ∧
      pyReplaceOnce c old new = pre ++ new ++ suf := by
  unfold pyReplaceOnce
  cases hp : old.data with
  | nil =>
    have hold : old = "" := by
      cases old with
      | mk d => simp at hp; simp [hp]
    refine ⟨"", c, ?_, ?_⟩
    · simp [hold]
    · simp
  | cons p ps =>
    have hi : (p :: ps) <:+: c.data := by
      rw [pyCount_eq_aux c old p ps hp] at h
      exact (countOccAux_pos_iff p ps c.data).mp h
    obtain ⟨pre, suf, hdec, hrep⟩ := replaceOnceAux_of_infix p ps new.data c.data hi
    refine ⟨⟨pre⟩, ⟨suf⟩, ?_, ?_⟩
    · apply String.ext
      simp [String.data_append, hdec, hp]
    · simp only [hp]
      apply String.ext
      simp [String.data_append, hrep]

theorem pyReplaceOnce_eq_self_iff (c pat new : String) (h : 0 < pyCount c pat) :
    pyReplaceOnce c pat new = c ↔ new = pat := by
  unfold pyReplaceOnce
  cases hp : pat.data with
  | nil =>
    have hpat : pat = "" := by
      cases pat with
      | mk d => simp at hp; simp [hp]
    constructor
    · intro he
      have hlen := congrArg String.length he
      rw [String.length_append] at hlen
      have : new.length = 0 := by omega
      cases new with
      | mk d =>
        simp [String.length, List.length_eq_zero] at this
        simp [hpat, this]
    · intro hn
      simp [hn, hpat]
  | cons p ps =>
    have hi : (p :: ps) <:+: c.data := by
      rw [pyCount_eq_aux c pat p ps hp] at h
      exact (countOccAux_pos_iff p ps c.data).mp h
    constructor
    · intro he
      have hd : replaceOnceAux p ps new.data c.data = c.data :=
        congrArg String.data he
      have hnew := (replaceOnceAux_eq_self_iff p ps new.data c.data hi).mp hd
      apply String.ext
      rw [hnew, hp]
    · intro he
      subst he
      have h2 : replaceOnceAux p ps new.data c.data = c.data := by
        have h3 := replaceOnceAux_self p ps c.data
        rw [hp]
        exact h3
      exact String.ext h2

theorem pyReplaceOnce_self (c pat : String) : pyReplaceOnce c pat pat = c := by
  unfold pyReplaceOnce
  cases hp : pat.data with
  | nil =>
    have hpat : pat = "" := by
      cases pat with
      | mk d => simp at hp; simp [hp]
    simp [hpat]
  | cons p ps =>
    show (⟨replaceOnceAux p ps (p :: ps) c.data⟩ : String) = c
    exact String.ext (replaceOnceAux_self p ps c.data)

theorem strContains_false_of_count_zero (c old : String)
    (h : pyCount c old = 0) : strContains c old = false := by
  cases hb : strContains c old with
  | false => rfl
  | true =>
    have := (pyCount_pos_iff c old).mpr hb
    omega

/-- The two failure messages of FileEditTool.execute differ (their ninth
characters are distinct), whatever the occurrence count and path are. -/
theorem appears_ne_notFound (n : Nat) (path : String) :
    ("Content appears " ++ toString n ++
      " times in file. Please make old_content more specific.") ≠
    ("Content to replace not found in file: " ++ path) := by
  intro h
  have h8 := congrArg (fun s : String => s.data[8]?) h
  simp only [String.data_append, List.append_assoc] at h8
  rw [List.getElem?_append_left (by decide : (8 : Nat) < "Content appears ".data.length),
    List.getElem?_append_left
      (by decide : (8 : Nat) < "Content to replace not found in file: ".data.length)] at h8
  exact absurd h8 (by decide)


theorem fileEditExecute_noFile (fs : FileSystem) (path old new : String)
    (hv : validate_file_path path = true) (hfs : fs path = none) :
    fileEditExecute fs path old new =
      (fs, ⟨false, "", some ("File not found: " ++ path)⟩) := by
  unfold fileEditExecute
  rw [if_pos hv, hfs]

theorem fileEditExecute_some (fs : FileSystem) (path old new c : String)
    (hv : validate_file_path path = true) (hfs : fs path = some c) :
    fileEditExecute fs path old new =
      (if strContains c old = false then
        (fs, ⟨false, "", some ("Content to replace not found in file: " ++ path)⟩)
      else if 1 < pyCount c old then
        (fs, ⟨false, "", some ("Content appears " ++ toString (pyCount c old) ++
          " times in file. Please make old_content more specific.")⟩)
      else
        (fsUpdate fs path (pyReplaceOnce c old new),
          ⟨true, "Successfully edited " ++ path, none⟩)) := by
  unfold fileEditExecute
  rw [if_pos hv, hfs]

theorem fileEditExecute_notFound (fs : FileSystem) (path old new c : String)
    (hv : validate_file_path path = true) (hfs : fs path = some c)
    (h0 : pyCount c old = 0) :
    fileEditExecute fs path old new =
      (fs, ⟨false, "", some ("Content to replace not found in file: " ++ path)⟩) := by
  have hcon : strContains c old = false := strContains_false_of_count_zero c old h0
  rw [fileEditExecute_some fs path old new c hv hfs, if_pos hcon]

theorem fileEditExecute_multiple (fs : FileSystem) (path old new c : String)
    (hv : validate_file_path path = true) (hfs : fs path = some c)
    (hgt : 1 < pyCount c old) :
    fileEditExecute fs path old new =
      (fs, ⟨false, "", some ("Content appears " ++ toString (pyCount c old) ++
        " times in file. Please make old_content more specific.")⟩) := by
  have hcon : strContains c old = true := (pyCount_pos_iff c old).mp (by omega)
  have hne : ¬ (strContains c old = false) := by rw [hcon]; simp
  rw [fileEditExecute_some fs path old new c hv hfs, if_neg hne, if_pos hgt]

theorem fileEditExecute_success_eq (fs : FileSystem) (path old new c : String)
    (hv : validate_file_path path = true) (hfs : fs path = some c)
    (h1 : pyCount c old = 1) :
    fileEditExecute fs path old new =
      (fsUpdate fs path (pyReplaceOnce c old new),
        ⟨true, "Successfully edited " ++ path, none⟩) := by
  have hcon : strContains c old = true := (pyCount_pos_iff c old).mp (by omega)
  have hne : ¬ (strContains c old = false) := by rw [hcon]; simp
  rw [fileEditExecute_some fs path old new c hv hfs, if_neg hne,
    if_neg (by omega : ¬ 1 < pyCount c old)]

/-- C3: for a path that passes validation, `file_edit` succeeds exactly
when the file exists and the old content occurs exactly once; on success
that single occurrence is replaced; if the old content occurs zero times
the tool reports the not-found error and the filesystem is unchanged; if
it occurs more than once, or the file does not exist, the tool fails and
the filesystem is unchanged. -/
theorem fileEdit_success_iff (fs : FileSystem) (path old new : String)
    (hv : validate_file_path path = true) :
    ((fileEditExecute fs path old new).2.success = true ↔
      ∃ c, fs path = some c ∧ pyCount c old = 1)
    ∧ (∀ c, fs path = some c → pyCount c old = 1 →
        ∃ pre suf : String, c = pre ++ old ++ suf ∧
          (fileEditExecute fs path old new).1 path = some (pre ++ new ++ suf))
    ∧ (∀ c, fs path = some c → pyCount c old = 0 →
        (fileEditExecute fs path old new).2 =
          ⟨false, "", some ("Content to replace not found in file: " ++ path)⟩ ∧
        (fileEditExecute fs path old new).1 = fs)
    ∧ (∀ c, fs path = some c → 1 < pyCount c old →
        (fileEditExecute fs path old new).2.success = false ∧
        (fileEditExecute fs path old new).1 = fs)
    ∧ (fs path = none →
        (fileEditExecute fs path old new).2.success = false ∧
        (fileEditExecute fs path old new).1 = fs) := by
  refine ⟨?_, ?_, ?_, ?_, ?_⟩
  · constructor
    · intro hsucc
      cases hfs : fs path with
      | none =>
        rw [fileEditExecute_noFile fs path old new hv hfs] at hsucc
        exact absurd hsucc (by simp)
      | some c =>
        refine ⟨c, rfl, ?_⟩
        by_contra hne1
        rcases Nat.lt_or_ge 1 (pyCount c old) with hgt | hle
        · rw [fileEditExecute_multiple fs path old new c hv hfs hgt] at hsucc
          exact absurd hsucc (by simp)
        · have h0 : pyCount c old = 0 := by omega
          rw [fileEditExecute_notFound fs path old new c hv hfs h0] at hsucc
          exact absurd hsucc (by simp)
    · rintro ⟨c, hfs, h1⟩
      rw [fileEditExecute_success_eq fs path old new c hv hfs h1]
  · intro c hfs h1
    rw [fileEditExecute_success_eq fs path old new c hv hfs h1]
    obtain ⟨pre, suf, hdec, hrep⟩ := pyReplaceOnce_decomp c old new (by omega)
    exact ⟨pre, suf, hdec, by simp [fsUpdate, hrep]⟩
  · intro c hfs h0
    rw [fileEditExecute_notFound fs path old new c hv hfs h0]
    exact ⟨rfl, rfl⟩
  · intro c hfs hgt
    rw [fileEditExecute_multiple fs path old new c hv hfs hgt]
    exact ⟨rfl, rfl⟩
  · intro hfs
    rw [fileEditExecute_noFile fs path old new hv hfs]
    exact ⟨rfl, rfl⟩

theorem fileEdit_success_iff_witness :
    ((fileEditExecute (fun p => if p = "a.txt" then some "hello world" else none)
        "a.txt" "world" "lean").2.success = true ↔
      ∃ c, (if "a.txt" = "a.txt" then some "hello world" else none) = some c ∧
        pyCount c "world" = 1) :=
  (fileEdit_success_iff (fun p => if p = "a.txt" then some "hello world" else none)
    "a.txt" "world" "lean" (by decide)).1

/-- C4 counterexample: the file "aab" contains "ab" exactly once, the
replacement "b" does not contain "ab", yet editing twice changes the file
again (the first edit produces "ab", whose single occurrence the second
edit replaces): applying file_edit twice is not idempotent even though the
new content does not contain the old content. -/
theorem fileEdit_twice_counterexample :
    strContains "b" "ab" = false ∧
    pyCount "aab" "ab" = 1 ∧
    (fileEditExecute (fileEditExecute (fun p => if p = "f" then some "aab" else none)
        "f" "ab" "b").1 "f" "ab" "b").1 "f" ≠
      (fileEditExecute (fun p => if p = "f" then some "aab" else none)
        "f" "ab" "b").1 "f" := by
  refine ⟨by decide, by decide, ?_⟩
  decide


/-- C4 (amended): if the file at a valid path contains the old content
exactly once, then applying file_edit twice is idempotent (the filesystem
after the second application equals the filesystem after the first)
precisely when the content produced by the first edit does not contain the
old content exactly once any more, or the new content equals the old one;
and the second application fails with the not-found error precisely when
the old content no longer occurs at all in the edited file. -/
theorem fileEdit_twice_characterization (fs : FileSystem) (path old new c : String)
    (hv : validate_file_path path = true)
    (hc : fs path = some c) (h1 : pyCount c old = 1) :
    ((fileEditExecute (fileEditExecute fs path old new).1 path old new).1 =
        (fileEditExecute fs path old new).1 ↔
      (pyCount (pyReplaceOnce c old new) old ≠ 1 ∨ new = old))
    ∧ ((fileEditExecute (fileEditExecute fs path old new).1 path old new).2.error =
          some ("Content to replace not found in file: " ++ path) ↔
        pyCount (pyReplaceOnce c old new) old = 0) := by
  have hfirst := fileEditExecute_success_eq fs path old new c hv hc h1
  have hfs1 : (fileEditExecute fs path old new).1 path =
      some (pyReplaceOnce c old new) := by
    rw [hfirst]
    simp [fsUpdate]
  rcases Nat.lt_trichotomy (pyCount (pyReplaceOnce c old new) old) 1 with hlt | heq1 | hgt
  · have h0 : pyCount (pyReplaceOnce c old new) old = 0 := by omega
    have hsecond := fileEditExecute_notFound (fileEditExecute fs path old new).1
      path old new (pyReplaceOnce c old new) hv hfs1 h0
    constructor
    · rw [hsecond]
      exact ⟨fun _ => Or.inl (by omega), fun _ => rfl⟩
    · rw [hsecond]
      simp [h0]
  · have hsecond := fileEditExecute_success_eq (fileEditExecute fs path old new).1
      path old new (pyReplaceOnce c old new) hv hfs1 heq1
    constructor
    · rw [hsecond]
      constructor
      · intro hidem
        right
        have happ := congrFun hidem path
        rw [hfs1] at happ
        have happ2 : fsUpdate (fileEditExecute fs path old new).1 path
            (pyReplaceOnce (pyReplaceOnce c old new) old new) path =
            some (pyReplaceOnce c old new) := happ
        have hval : fsUpdate (fileEditExecute fs path old new).1 path
            (pyReplaceOnce (pyReplaceOnce c old new) old new) path =
            some (pyReplaceOnce (pyReplaceOnce c old new) old new) := by
          simp [fsUpdate]
        rw [hval] at happ2
        have hrep : pyReplaceOnce (pyReplaceOnce c old new) old new =
            pyReplaceOnce c old new := by
          injection happ2
        exact (pyReplaceOnce_eq_self_iff (pyReplaceOnce c old new) old new
          (by omega)).mp hrep
      · rintro (hne1 | hnewold)
        · omega
        · subst hnewold
          rw [pyReplaceOnce_self]
          funext q
          by_cases hq : q = path
          · subst hq
            simp only [fsUpdate, if_pos rfl]
            exact hfs1.symm
          · simp [fsUpdate, hq]
    · rw [hsecond]
      constructor
      · intro hnone
        exact absurd hnone (by simp)
      · intro h0
        omega
  · have hsecond := fileEditExecute_multiple (fileEditExecute fs path old new).1
      path old new (pyReplaceOnce c old new) hv hfs1 hgt
    constructor
    · rw [hsecond]
      exact ⟨fun _ => Or.inl (by omega), fun _ => rfl⟩
    · rw [hsecond]
      simp only [Option.some.injEq]
      constructor
      · intro hmsg
        exact absurd hmsg
          (appears_ne_notFound (pyCount (pyReplaceOnce c old new) old) path)
      · intro h0
        exact absurd h0 (by omega)

theorem fileEdit_twice_characterization_witness :
    (fileEditExecute (fileEditExecute (fun p => if p = "g" then some "xay" else none)
        "g" "a" "bb").1 "g" "a" "bb").1 =
      (fileEditExecute (fun p => if p = "g" then some "xay" else none) "g" "a" "bb").1 ↔
    (pyCount (pyReplaceOnce "xay" "a" "bb") "a" ≠ 1 ∨ "bb" = "a") :=
  (fileEdit_twice_characterization (fun p => if p = "g" then some "xay" else none)
    "g" "a" "bb" "xay" (by decide) (by decide) (by decide)).1

/- ===================================================================
   Section 3: StreamingBuffer (services/streaming_buffer.py).

   The `_buffers` and `_metadata` dicts become partial maps keyed by
   message id.  The wall-clock fields start_time / end_time of
   StreamMetadata are not modelled (no claim mentions them); add_chunk
   updates the metadata entry through Option.map where Python would
   raise KeyError on a buffer without metadata, a state the service API
   never produces.
   =================================================================== -/

/-- StreamMetadata (without the wall-clock fields). -/
structure StreamMetadataM where
  chunk_count : Nat
  total_bytes : Nat
  is_streaming : Bool
  error : Option String
  deriving Repr, DecidableEq

/-- StreamingBuffer state: per-message chunk lists, per-message metadata
and the max_buffer_size configured at construction (default 10000). -/
structure BufferState where
  buffers : String → Option (List String)
  metadata : String → Option StreamMetadataM
  max_buffer_size : Nat

/-- StreamingBuffer.start_streaming. -/
def bufStart (st : BufferState) (mid : String) : BufferState :=
  { st with
    buffers := fun q => if q = mid then some [] else st.buffers q,
    metadata := fun q => if q = mid then some ⟨0, 0, true, none⟩ else st.metadata q }

/-- StreamingBuffer.add_chunk.  The second component is the raised
ValueError message, `none` when the call succeeds; when it is `some` the
returned state equals the input state (the exception is raised before any
mutation).  On overflow the buffer is truncated to its last 1000 chunks
before appending. -/
def bufAddChunk (st : BufferState) (mid chunk : String) :
    BufferState × Option String :=
  match st.buffers mid with
  | none => (st, some ("No active stream for message " ++ mid))
  | some buf =>
    let buf1 := if st.max_buffer_size ≤ buf.length then
        buf.drop (buf.length - 1000) else buf
    let buf2 := buf1 ++ [chunk]
    ({ st with
       buffers := fun q => if q = mid then some buf2 else st.buffers q,
       metadata := fun q => if q = mid then
           (st.metadata mid).map (fun m =>
             { m with chunk_count := m.chunk_count + 1,
                      total_bytes := m.total_bytes + chunk.length })
         else st.metadata q },
     none)

/-- StreamingBuffer.get_complete_content. -/
def bufGetCompleteContent (st : BufferState) (mid : String) : String :=
  match st.buffers mid with
  | none => ""
  | some buf => String.join buf

/-- StreamingBuffer.get_chunks_since. -/
def bufGetChunksSince (st : BufferState) (mid : String) (idx : Nat) : List String :=
  match st.buffers mid with
  | none => []
  | some buf => buf.drop idx

/-- StreamingBuffer.end_streaming (the returned metadata dict is kept in
the state; its dictionary rendering is not needed by any claim). -/
def bufEndStreaming (st : BufferState) (mid : String) (error : Option String) :
    BufferState :=
  match st.metadata mid with
  | none => st
  | some m =>
    let m1 : StreamMetadataM := { m with is_streaming := false, error := error }
    { st with metadata := fun q => if q = mid then some m1 else st.metadata q }

/-- StreamingBuffer.cleanup. -/
def bufCleanup (st : BufferState) (mid : String) : BufferState :=
  { st with
    buffers := fun q => if q = mid then none else st.buffers q,
    metadata := fun q => if q = mid then none else st.metadata q }

/-- C10: for a message id with no active buffer, add_chunk raises the
ValueError and leaves the state unchanged, get_complete_content returns
the empty string, and get_chunks_since returns the empty list. -/
theorem buffer_no_active_stream (st : BufferState) (mid chunk : String) (idx : Nat)
    (h : st.buffers mid = none) :
    bufAddChunk st mid chunk = (st, some ("No active stream for message " ++ mid))
    ∧ bufGetCompleteContent st mid = ""
    ∧ bufGetChunksSince st mid idx = [] := by
  unfold bufAddChunk bufGetCompleteContent bufGetChunksSince
  rw [h]
  exact ⟨rfl, rfl, rfl⟩

theorem buffer_no_active_stream_witness :
    bufAddChunk ⟨fun _ => none, fun _ => none, 10000⟩ "m" "x" =
      (⟨fun _ => none, fun _ => none, 10000⟩,
        some ("No active stream for message " ++ "m"))
    ∧ bufGetCompleteContent ⟨fun _ => none, fun _ => none, 10000⟩ "m" = ""
    ∧ bufGetChunksSince ⟨fun _ => none, fun _ => none, 10000⟩ "m" 0 = [] :=
  buffer_no_active_stream ⟨fun _ => none, fun _ => none, 10000⟩ "m" "x" 0 rfl

/- ===================================================================
   Section 4: MessagePersistenceService and MessageOrchestrator
   (services/message_persistence.py, services/message_orchestrator.py).

   The database is a partial map from message id to its row; only the
   columns that claims mention are kept (session, role, content,
   is_complete).  Emission on the EventBus is modelled by appending the
   emitted event to a trace; the bus internals are not needed by the
   claims.  The deterministic model has no external database faults, so
   the re-read verification step of complete_streaming is represented by
   the same length comparison the source performs.
   =================================================================== -/

/-- Message row (models/database); metadata columns are omitted. -/
structure MessageRow where
  chat_session_id : String
  role : String
  content : String
  is_complete : Bool
  deriving Repr, DecidableEq

/-- StreamingEvent emissions of the orchestrator. -/
inductive OrchEvent where
  | start (message_id session_id : String)
  | chunk (message_id content : String)
  | actionStreaming (message_id tool : String) (step : Option Nat)
  | actionComplete (message_id tool : String) (step : Option Nat)
  | observation (message_id content : String) (success : Bool) (step : Option Nat)
  | persistStart (message_id : String) (content_length : Nat)
  | persistSuccess (message_id : String) (content_length : Nat)
  | persistFailure (message_id error : String)
  | errorEv (message_id error : String)
  | endEv (message_id : String) (success : Bool) (content_length : Nat)
  deriving Repr, DecidableEq

/-- Combined orchestrator state: database rows, streaming buffer, the
active-streams dict and the trace of emitted events. -/
structure OrchState where
  db : String → Option MessageRow
  buf : BufferState
  active_streams : List (String × String)
  events : List OrchEvent

/-- MessageOrchestrator.start_streaming: create the row with empty content
and is_complete=false, initialise the buffer, track the stream, emit
START.  The uuid4 chosen by create_message is passed in as `mid`. -/
def orchStartStreaming (st : OrchState) (sid mid role : String) : OrchState :=
  { db := fun q => if q = mid then some ⟨sid, role, "", false⟩ else st.db q,
    buf := bufStart st.buf mid,
    active_streams := st.active_streams ++ [(mid, sid)],
    events := st.events ++ [.start mid sid] }

/-- MessageOrchestrator.process_chunk: append to the buffer and emit CHUNK;
when add_chunk raises ValueError, emit ERROR instead. -/
def orchProcessChunk (st : OrchState) (mid chunk : String) : OrchState :=
  match bufAddChunk st.buf mid chunk with
  | (buf1, none) =>
    { st with buf := buf1, events := st.events ++ [.chunk mid chunk] }
  | (buf1, some e) =>
    { st with buf := buf1, events := st.events ++ [.errorEv mid e] }

/-- MessageOrchestrator.process_action. -/
def orchProcessAction (st : OrchState) (mid tool : String) (status : String)
    (step : Option Nat) : OrchState :=
  if status = "streaming" then
    { st with events := st.events ++ [.actionStreaming mid tool step] }
  else if status = "complete" then
    { st with events := st.events ++ [.actionComplete mid tool step] }
  else st

/-- MessageOrchestrator.process_observation. -/
def orchProcessObservation (st : OrchState) (mid content : String)
    (success : Bool) (step : Option Nat) : OrchState :=
  { st with events := st.events ++ [.observation mid content success step] }

/-- MessagePersistenceService.mark_message_incomplete. -/
def markIncomplete (st : OrchState) (mid : String) : OrchState :=
  match st.db mid with
  | none => st
  | some row =>
    let row1 : MessageRow := { row with is_complete := false }
    { st with db := fun q => if q = mid then some row1 else st.db q }

/-- MessageOrchestrator.complete_streaming combined with
MessagePersistenceService.save_complete_message: read the buffered
content, end the stream, emit PERSIST_START, atomically store content
with is_complete=true, verify the stored length, clean the buffer,
remove the active stream and emit PERSIST_SUCCESS and END; on a missing
row or a failed verification, mark the message incomplete and emit
PERSIST_FAILURE and ERROR, returning false. -/
def orchCompleteStreaming (st : OrchState) (mid : String) (cancelled : Bool) :
    OrchState × Bool :=
  let content := bufGetCompleteContent st.buf mid
  let st1 := { st with buf := bufEndStreaming st.buf mid none }
  let st2 := { st1 with events := st1.events ++ [OrchEvent.persistStart mid content.length] }
  match st2.db mid with
  | none =>
    let st3 := markIncomplete st2 mid
    let msg := "Failed to persist message: Message " ++ mid ++ " not found"
    ({ st3 with events := st3.events ++ [OrchEvent.persistFailure mid msg, OrchEvent.errorEv mid msg] },
      false)
  | some row =>
    let row1 : MessageRow := { row with content := content, is_complete := true }
    let st3 := { st2 with db := fun q => if q = mid then some row1 else st2.db q }
    if row1.content.length = content.length then
      let st4 := { st3 with
        buf := bufCleanup st3.buf mid,
        active_streams := st3.active_streams.filter (fun e => !(e.1 = mid)) }
      ({ st4 with events := st4.events ++
          [OrchEvent.persistSuccess mid content.length, OrchEvent.endEv mid true content.length] }, true)
    else
      let st5 := markIncomplete st3 mid
      let msg := "Content length mismatch after save"
      ({ st5 with events := st5.events ++ [OrchEvent.persistFailure mid msg, OrchEvent.errorEv mid msg] },
        false)

/-- The scenario of claim C1: open an assistant message, feed every chunk
of `cs` through process_chunk, then finalize. -/
def orchScenario (st0 : OrchState) (sid mid : String) (cs : List String) :
    OrchState × Bool :=
  orchCompleteStreaming
    (cs.foldl (fun s c => orchProcessChunk s mid c) (orchStartStreaming st0 sid mid "assistant"))
    mid false

theorem orchProcessChunk_eq (st : OrchState) (mid chunk : String) (b : List String)
    (hb : st.buf.buffers mid = some b) :
    orchProcessChunk st mid chunk =
      { st with
        buf := { st.buf with
          buffers := fun q => if q = mid then
              some ((if st.buf.max_buffer_size ≤ b.length then
                b.drop (b.length - 1000) else b) ++ [chunk])
            else st.buf.buffers q,
          metadata := fun q => if q = mid then
              (st.buf.metadata mid).map (fun m =>
                { m with chunk_count := m.chunk_count + 1,
                         total_bytes := m.total_bytes + chunk.length })
            else st.buf.metadata q },
        events := st.events ++ [OrchEvent.chunk mid chunk] } := by
  unfold orchProcessChunk bufAddChunk
  rw [hb]

theorem orchFold_no_overflow (mid : String) :
    ∀ (cs : List String) (st : OrchState) (b : List String),
      st.buf.buffers mid = some b →
      b.length + cs.length ≤ st.buf.max_buffer_size →
      ((cs.foldl (fun s c => orchProcessChunk s mid c) st).buf.buffers mid = some (b ++ cs))
      ∧ ((cs.foldl (fun s c => orchProcessChunk s mid c) st).buf.max_buffer_size =
          st.buf.max_buffer_size)
      ∧ ((cs.foldl (fun s c => orchProcessChunk s mid c) st).db = st.db)
      ∧ ((cs.foldl (fun s c => orchProcessChunk s mid c) st).active_streams =
          st.active_streams)
      ∧ ((cs.foldl (fun s c => orchProcessChunk s mid c) st).events =
          st.events ++ cs.map (fun c => OrchEvent.chunk mid c)) := by
  intro cs
  induction cs with
  | nil =>
    intro st b hb hlen
    simp [hb]
  | cons c cs ih =>
    intro st b hb hlen
    have hnotr : ¬ st.buf.max_buffer_size ≤ b.length := by
      simp only [List.length_cons] at hlen
      omega
    have hstep := orchProcessChunk_eq st mid c b hb
    have hb1 : (orchProcessChunk st mid c).buf.buffers mid = some (b ++ [c]) := by
      rw [hstep]
      simp [hnotr]
    have hmax1 : (orchProcessChunk st mid c).buf.max_buffer_size =
        st.buf.max_buffer_size := by
      rw [hstep]
    have hdb1 : (orchProcessChunk st mid c).db = st.db := by
      rw [hstep]
    have hact1 : (orchProcessChunk st mid c).active_streams = st.active_streams := by
      rw [hstep]
    have hev1 : (orchProcessChunk st mid c).events =
        st.events ++ [OrchEvent.chunk mid c] := by
      rw [hstep]
    have hlen1 : (b ++ [c]).length + cs.length ≤
        (orchProcessChunk st mid c).buf.max_buffer_size := by
      rw [hmax1, List.length_append]
      simp only [List.length_cons, List.length_nil] at hlen ⊢
      omega
    obtain ⟨h1, h2, h3, h4, h5⟩ := ih (orchProcessChunk st mid c) (b ++ [c]) hb1 hlen1
    rw [List.foldl_cons]
    refine ⟨?_, ?_, ?_, ?_, ?_⟩
    · rw [h1]
      simp
    · rw [h2, hmax1]
    · rw [h3, hdb1]
    · rw [h4, hact1]
    · rw [h5, hev1]
      simp

theorem orchComplete_eq_success (st : OrchState) (mid : String) (row : MessageRow)
    (b : List String) (hdb : st.db mid = some row) (hb : st.buf.buffers mid = some b) :
    orchCompleteStreaming st mid false =
      ({ db := fun q => if q = mid then
            some { row with content := String.join b, is_complete := true }
          else st.db q,
         buf := bufCleanup (bufEndStreaming st.buf mid none) mid,
         active_streams := st.active_streams.filter (fun e => !(e.1 = mid)),
         events := st.events ++
           [OrchEvent.persistStart mid (String.join b).length,
            OrchEvent.persistSuccess mid (String.join b).length,
            OrchEvent.endEv mid true (String.join b).length] }, true) := by
  obtain ⟨db, buf, act, ev⟩ := st
  simp only at hdb hb
  simp only [orchCompleteStreaming, bufGetCompleteContent, hb, hdb]
  simp [List.append_assoc]

/-- C1 (amended): when the number of streamed chunks does not exceed the
buffer's max_buffer_size, a finalized assistant message is persisted with
is_complete=true and content equal to the concatenation of all chunks,
each of which was emitted as a CHUNK event in order. -/
theorem streaming_roundtrip_content (st0 : OrchState) (sid mid : String)
    (cs : List String) (hfresh : st0.db mid = none)
    (hlen : cs.length ≤ st0.buf.max_buffer_size) :
    (orchScenario st0 sid mid cs).2 = true
    ∧ (orchScenario st0 sid mid cs).1.db mid =
        some ⟨sid, "assistant", String.join cs, true⟩
    ∧ (orchScenario st0 sid mid cs).1.events =
        st0.events ++ [OrchEvent.start mid sid]
          ++ cs.map (fun c => OrchEvent.chunk mid c)
          ++ [OrchEvent.persistStart mid (String.join cs).length,
              OrchEvent.persistSuccess mid (String.join cs).length,
              OrchEvent.endEv mid true (String.join cs).length] := by
  unfold orchScenario
  have hb1 : (orchStartStreaming st0 sid mid "assistant").buf.buffers mid = some [] := by
    simp [orchStartStreaming, bufStart]
  have hmax1 : (orchStartStreaming st0 sid mid "assistant").buf.max_buffer_size =
      st0.buf.max_buffer_size := by
    simp [orchStartStreaming, bufStart]
  obtain ⟨h1, h2, h3, h4, h5⟩ := orchFold_no_overflow mid cs
    (orchStartStreaming st0 sid mid "assistant") [] hb1
    (by rw [hmax1]; simpa using hlen)
  have hdb2 : (cs.foldl (fun s c => orchProcessChunk s mid c)
      (orchStartStreaming st0 sid mid "assistant")).db mid =
      some ⟨sid, "assistant", "", false⟩ := by
    rw [h3]
    simp [orchStartStreaming]
  have hcomp := orchComplete_eq_success
    (cs.foldl (fun s c => orchProcessChunk s mid c)
      (orchStartStreaming st0 sid mid "assistant"))
    mid ⟨sid, "assistant", "", false⟩ ([] ++ cs) hdb2 h1
  rw [hcomp]
  refine ⟨rfl, ?_, ?_⟩
  · simp
  · rw [h5]
    simp [orchStartStreaming, List.append_assoc]

theorem streaming_roundtrip_content_witness :
    (orchScenario ⟨fun _ => none, ⟨fun _ => none, fun _ => none, 10000⟩, [], []⟩
        "s" "m" ["he", "llo"]).1.db "m" =
      some ⟨"s", "assistant", String.join ["he", "llo"], true⟩ :=
  (streaming_roundtrip_content
    ⟨fun _ => none, ⟨fun _ => none, fun _ => none, 10000⟩, [], []⟩
    "s" "m" ["he", "llo"] rfl (by decide)).2.1

theorem join_length_sum (l : List String) :
    (String.join l).length = (l.map String.length).sum := by
  have haux : ∀ (t : List String) (a : String),
      (List.foldl (fun r s => r ++ s) a t).length =
        a.length + (t.map String.length).sum := by
    intro t
    induction t with
    | nil =>
      intro a
      simp
    | cons s t ih =>
      intro a
      rw [List.foldl_cons, ih (a ++ s), String.length_append, List.map_cons,
        List.sum_cons]
      omega
  have h0 := haux l ""
  simpa [String.join] using h0

theorem join_length_allx (l : List String) (h : ∀ s ∈ l, s = "x") :
    (String.join l).length = l.length := by
  rw [join_length_sum]
  induction l with
  | nil => simp
  | cons s t ih =>
    rw [List.map_cons, List.sum_cons, List.length_cons]
    have hs : s = "x" := h s (by simp)
    have ht : (t.map String.length).sum = t.length :=
      ih (fun u hu => h u (by simp [hu]))
    rw [hs, ht]
    have hxlen : ("x" : String).length = 1 := by decide
    rw [hxlen]
    omega

theorem orchFold_overflow_bound (mid : String) :
    ∀ (cs : List String) (st : OrchState),
      (∀ c ∈ cs, c = "x") →
      st.buf.max_buffer_size = 1 →
      (∃ b, st.buf.buffers mid = some b ∧ b.length ≤ 1001 ∧ (∀ s ∈ b, s = "x")) →
      ((cs.foldl (fun s c => orchProcessChunk s mid c) st).buf.max_buffer_size = 1)
      ∧ ((cs.foldl (fun s c => orchProcessChunk s mid c) st).db = st.db)
      ∧ (∃ b, (cs.foldl (fun s c => orchProcessChunk s mid c) st).buf.buffers mid =
            some b ∧ b.length ≤ 1001 ∧ (∀ s ∈ b, s = "x")) := by
  intro cs
  induction cs with
  | nil =>
    intro st _ hmax hb
    exact ⟨hmax, rfl, hb⟩
  | cons c cs ih =>
    intro st hcs hmax hb
    obtain ⟨b, hb, hblen, hbx⟩ := hb
    have hstep := orchProcessChunk_eq st mid c b hb
    have hmax1 : (orchProcessChunk st mid c).buf.max_buffer_size = 1 := by
      rw [hstep]
      exact hmax
    have hdb1 : (orchProcessChunk st mid c).db = st.db := by
      rw [hstep]
    have hb1 : (orchProcessChunk st mid c).buf.buffers mid =
        some ((if st.buf.max_buffer_size ≤ b.length then
          b.drop (b.length - 1000) else b) ++ [c]) := by
      rw [hstep]
      simp
    have hx1 : ∀ s ∈ (if st.buf.max_buffer_size ≤ b.length then
        b.drop (b.length - 1000) else b) ++ [c], s = "x" := by
      intro s hs
      rcases List.mem_append.mp hs with hs1 | hs2
      · by_cases hcase : st.buf.max_buffer_size ≤ b.length
        · rw [if_pos hcase] at hs1
          exact hbx s (List.drop_subset _ b hs1)
        · rw [if_neg hcase] at hs1
          exact hbx s hs1
      · have : s = c := by simpa using hs2
        rw [this]
        exact hcs c (by simp)
    have hlen1 : ((if st.buf.max_buffer_size ≤ b.length then
        b.drop (b.length - 1000) else b) ++ [c]).length ≤ 1001 := by
      rw [List.length_append]
      by_cases hcase : st.buf.max_buffer_size ≤ b.length
      · rw [if_pos hcase]
        rw [List.length_drop]
        simp only [List.length_cons, List.length_nil]
        omega
      · rw [if_neg hcase]
        rw [hmax] at hcase
        simp only [List.length_cons, List.length_nil]
        omega
    obtain ⟨hm, hd, hrest⟩ := ih (orchProcessChunk st mid c)
      (fun u hu => hcs u (by simp [hu])) hmax1 ⟨_, hb1, hlen1, hx1⟩
    rw [List.foldl_cons]
    exact ⟨hm, hd.trans hdb1, hrest⟩

/-- Overflow behaviour of the C1 scenario, proved for an abstract list of
1002 one-character chunks so that no concrete evaluation is ever forced:
finalize succeeds, yet the stored content differs from the concatenation
of all streamed chunks because add_chunk truncated the buffer. -/
theorem orchScenario_overflow_general (st0 : OrchState) (sid mid : String)
    (cs : List String) (hall : ∀ c ∈ cs, c = "x")
    (hmax : st0.buf.max_buffer_size = 1) (hlen1002 : cs.length = 1002) :
    (orchScenario st0 sid mid cs).2 = true
    ∧ (orchScenario st0 sid mid cs).1.db mid ≠
      some ⟨sid, "assistant", String.join cs, true⟩ := by
  unfold orchScenario
  have hb1 : (orchStartStreaming st0 sid mid "assistant").buf.buffers mid =
      some [] := by
    simp [orchStartStreaming, bufStart]
  have hmax1 : (orchStartStreaming st0 sid mid "assistant").buf.max_buffer_size =
      1 := by
    simpa [orchStartStreaming, bufStart] using hmax
  obtain ⟨hm, hd, b, hb, hblen, hbx⟩ := orchFold_overflow_bound mid cs
    (orchStartStreaming st0 sid mid "assistant") hall hmax1
    ⟨[], hb1, by simp, by simp⟩
  have hdb2 : (cs.foldl (fun s c => orchProcessChunk s mid c)
      (orchStartStreaming st0 sid mid "assistant")).db mid =
      some ⟨sid, "assistant", "", false⟩ := by
    rw [hd]
    simp [orchStartStreaming]
  have hcomp := orchComplete_eq_success _ mid ⟨sid, "assistant", "", false⟩ b hdb2 hb
  rw [hcomp]
  refine ⟨rfl, ?_⟩
  intro hcontra
  have hval : ((⟨fun q => if q = mid then
        some ⟨sid, "assistant", String.join b, true⟩
      else (cs.foldl (fun s c => orchProcessChunk s mid c)
        (orchStartStreaming st0 sid mid "assistant")).db q,
      bufCleanup (bufEndStreaming (cs.foldl (fun s c => orchProcessChunk s mid c)
        (orchStartStreaming st0 sid mid "assistant")).buf mid none) mid,
      (cs.foldl (fun s c => orchProcessChunk s mid c)
        (orchStartStreaming st0 sid mid "assistant")).active_streams.filter
          (fun e => !(e.1 = mid)),
      (cs.foldl (fun s c => orchProcessChunk s mid c)
        (orchStartStreaming st0 sid mid "assistant")).events ++
        [OrchEvent.persistStart mid (String.join b).length,
         OrchEvent.persistSuccess mid (String.join b).length,
         OrchEvent.endEv mid true (String.join b).length]⟩ : OrchState), true).1.db mid =
      some ⟨sid, "assistant", String.join b, true⟩ := by
    show (if mid = mid then
        some (⟨sid, "assistant", String.join b, true⟩ : MessageRow)
      else (cs.foldl (fun s c => orchProcessChunk s mid c)
        (orchStartStreaming st0 sid mid "assistant")).db mid) =
      some ⟨sid, "assistant", String.join b, true⟩
    rw [if_pos rfl]
  rw [hval] at hcontra
  have h2 := Option.some.inj hcontra
  have hcontent := congrArg MessageRow.content h2
  simp only at hcontent
  have hlenb : (String.join b).length = b.length := join_length_allx b hbx
  have hlencs : (String.join cs).length = 1002 := by
    rw [join_length_allx cs hall, hlen1002]
  rw [hcontent, hlencs] at hlenb
  omega

/-- C1 counterexample: with max_buffer_size 1 and 1002 chunks "x",
complete_streaming returns true but the persisted message content is not
the concatenation of the 1002 chunks passed to process_chunk. -/
theorem streaming_roundtrip_content_counterexample :
    (orchScenario ⟨fun _ => none, ⟨fun _ => none, fun _ => none, 1⟩, [], []⟩
        "s" "m" (List.replicate 1002 "x")).2 = true
    ∧ (orchScenario ⟨fun _ => none, ⟨fun _ => none, fun _ => none, 1⟩, [], []⟩
        "s" "m" (List.replicate 1002 "x")).1.db "m" ≠
      some ⟨"s", "assistant", String.join (List.replicate 1002 "x"), true⟩ :=
  orchScenario_overflow_general
    ⟨fun _ => none, ⟨fun _ => none, fun _ => none, 1⟩, [], []⟩
    "s" "m" (List.replicate 1002 "x")
    (fun c hc => List.eq_of_mem_replicate hc) rfl
    (by rw [List.length_replicate])

/- ===================================================================
   Section 5: AgentTaskRegistry (api/websocket/task_registry.py).

   The `_tasks` dict is modelled as an association list (Python dicts
   keep at most one value per key; the association list makes the
   at-most-one property a provable invariant rather than a type-level
   assumption).  asyncio handles and events live outside the registry:
   whether a task is done is an input read at call time, and setting a
   cancel event or cancelling a handle is recorded as an effect.
   =================================================================== -/

/-- AgentTask entry: handle and event objects are represented by the
message id they belong to; created_at is an abstract tick. -/
structure AgentTaskM where
  message_id : String
  created_at : Nat
  status : String
  deriving Repr, DecidableEq

/-- Externally visible side effects of registry operations. -/
inductive RegEffect where
  | setCancelEvent (session_id message_id : String)
  | cancelHandle (session_id message_id : String)
  deriving Repr, DecidableEq

/-- Registry state: the association list backing the `_tasks` dict. -/
abbrev RegState : Type := List (String × AgentTaskM)

/-- Python dict assignment `d[k] = v`: replace in place or append. -/
def dictInsert (l : RegState) (k : String) (v : AgentTaskM) : RegState :=
  if (l.lookup k).isSome then
    l.map (fun e => if e.1 = k then (k, v) else e)
  else
    l ++ [(k, v)]

/-- AgentTaskRegistry.register_task: cancel a live prior task for the
session, then store the new running task. `oldDone` is the value of
`old_task.task.done()` at call time, `now` the current time. -/
def registerTask (l : RegState) (session_id message_id : String)
    (oldDone : Bool) (now : Nat) : RegState × List RegEffect :=
  let effects :=
    match l.lookup session_id with
    | some old =>
      if !oldDone then
        [RegEffect.setCancelEvent session_id old.message_id,
         RegEffect.cancelHandle session_id old.message_id]
      else []
    | none => []
  (dictInsert l session_id ⟨message_id, now, "running"⟩, effects)

/-- AgentTaskRegistry.cancel_task. `doneNow` is `task.done()` at call
time. Returns the new state, the effects and the boolean result. -/
def cancelTask (l : RegState) (session_id : String) (doneNow : Bool) :
    RegState × List RegEffect × Bool :=
  match l.lookup session_id with
  | some old =>
    if !doneNow then
      (l.map (fun e => if e.1 = session_id then
          (session_id, { old with status := "cancelled" }) else e),
       [RegEffect.setCancelEvent session_id old.message_id,
        RegEffect.cancelHandle session_id old.message_id],
       true)
    else (l, [], false)
  | none => (l, [], false)

/-- AgentTaskRegistry.mark_completed. -/
def markCompleted (l : RegState) (session_id status : String) : RegState :=
  match l.lookup session_id with
  | some old =>
    l.map (fun e => if e.1 = session_id then
      (session_id, { old with status := status }) else e)
  | none => l

/-- AgentTaskRegistry.cleanup_task. -/
def cleanupTask (l : RegState) (session_id : String) : RegState :=
  l.filter (fun e => !(e.1 = session_id))

/-- AgentTaskRegistry.cleanup_old_tasks; `doneOf` reads each task handle's
done flag at call time. -/
def cleanupOldTasks (l : RegState) (now maxAge : Nat)
    (doneOf : String → Bool) : RegState :=
  l.filter (fun e => !(decide (maxAge < now - e.2.created_at) && doneOf e.1))

/-- One registry operation with the oracle inputs it reads. -/
inductive RegOp where
  | register (session_id message_id : String) (oldDone : Bool) (now : Nat)
  | cancel (session_id : String) (doneNow : Bool)
  | complete (session_id status : String)
  | cleanup (session_id : String)
  | gc (now maxAge : Nat) (doneOf : String → Bool)

/-- Apply one operation to the registry state. -/
def regStep (l : RegState) : RegOp → RegState
  | RegOp.register sid mid oldDone now => (registerTask l sid mid oldDone now).1
  | RegOp.cancel sid doneNow => (cancelTask l sid doneNow).1
  | RegOp.complete sid status => markCompleted l sid status
  | RegOp.cleanup sid => cleanupTask l sid
  | RegOp.gc now maxAge doneOf => cleanupOldTasks l now maxAge doneOf

/-- Number of entries of a session with status running. -/
def runningCount (l : RegState) (sid : String) : Nat :=
  (l.filter (fun e => e.1 = sid && e.2.status = "running")).length

/-- Key uniqueness invariant of the dict model. -/
def keysNodup (l : RegState) : Prop := (l.map Prod.fst).Nodup

theorem lookup_none_not_mem (k : String) :
    ∀ l : RegState, l.lookup k = none → k ∉ l.map Prod.fst := by
  intro l
  induction l with
  | nil =>
    intro _
    simp
  | cons e es ih =>
    obtain ⟨a, b⟩ := e
    intro h
    by_cases hk : k = a
    · exfalso
      simp only [List.lookup] at h
      rw [show (k == a) = true from by simp [hk]] at h
      simp at h
    · simp only [List.lookup] at h
      rw [show (k == a) = false from by simp [hk]] at h
      simp only [List.map_cons, List.mem_cons]
      rintro (h1 | h2)
      · exact hk h1
      · exact ih h h2

theorem map_fst_replace (l : RegState) (k : String) (v : AgentTaskM) :
    (l.map (fun e => if e.1 = k then (k, v) else e)).map Prod.fst =
      l.map Prod.fst := by
  rw [List.map_map]
  have hfun : (Prod.fst ∘ fun e : String × AgentTaskM =>
      if e.1 = k then (k, v) else e) = Prod.fst := by
    funext e
    by_cases he : e.1 = k
    · simp [he]
    · simp [he]
  rw [hfun]

theorem dictInsert_keysNodup (l : RegState) (k : String) (v : AgentTaskM)
    (h : keysNodup l) : keysNodup (dictInsert l k v) := by
  unfold dictInsert
  by_cases hmem : (l.lookup k).isSome
  · rw [if_pos hmem]
    unfold keysNodup
    rw [map_fst_replace]
    exact h
  · rw [if_neg hmem]
    unfold keysNodup
    rw [List.map_append]
    have hnone : l.lookup k = none := by
      cases hl : l.lookup k with
      | none => rfl
      | some v2 => rw [hl] at hmem; simp at hmem
    have hnot := lookup_none_not_mem k l hnone
    simp only [List.map_cons, List.map_nil]
    rw [List.nodup_append]
    exact ⟨h, List.nodup_singleton k, by simpa using fun hk => hnot hk⟩

theorem regStep_keysNodup (l : RegState) (op : RegOp) (h : keysNodup l) :
    keysNodup (regStep l op) := by
  cases op with
  | register sid mid oldDone now =>
    exact dictInsert_keysNodup l sid ⟨mid, now, "running"⟩ h
  | cancel sid doneNow =>
    simp only [regStep, cancelTask]
    cases hl : l.lookup sid with
    | none => exact h
    | some old =>
      cases doneNow with
      | true => exact h
      | false =>
        have h2 : keysNodup (l.map (fun e => if e.1 = sid then
            (sid, { old with status := "cancelled" }) else e)) := by
          unfold keysNodup
          rw [map_fst_replace]
          exact h
        exact h2
  | complete sid status =>
    simp only [regStep, markCompleted]
    cases hl : l.lookup sid with
    | none => exact h
    | some old =>
      have h2 : keysNodup (l.map (fun e => if e.1 = sid then
          (sid, { old with status := status }) else e)) := by
        unfold keysNodup
        rw [map_fst_replace]
        exact h
      exact h2
  | cleanup sid =>
    exact List.Nodup.sublist (List.Sublist.map Prod.fst (List.filter_sublist l)) h
  | gc now maxAge doneOf =>
    exact List.Nodup.sublist (List.Sublist.map Prod.fst (List.filter_sublist l)) h

theorem regFold_keysNodup (ops : List RegOp) :
    keysNodup (ops.foldl regStep []) := by
  have haux : ∀ (ops : List RegOp) (l : RegState), keysNodup l →
      keysNodup (ops.foldl regStep l) := by
    intro ops
    induction ops with
    | nil =>
      intro l h
      exact h
    | cons op rest ih =>
      intro l h
      rw [List.foldl_cons]
      exact ih (regStep l op) (regStep_keysNodup l op h)
  exact haux ops [] (by simp [keysNodup])

theorem runningCount_le_one_of_nodup (sid : String) :
    ∀ l : RegState, keysNodup l → runningCount l sid ≤ 1 := by
  intro l
  induction l with
  | nil =>
    intro _
    simp [runningCount]
  | cons e es ih =>
    intro h
    unfold keysNodup at h
    rw [List.map_cons, List.nodup_cons] at h
    obtain ⟨hnot, hes⟩ := h
    unfold runningCount
    rw [List.filter_cons]
    by_cases hp : (e.1 = sid && e.2.status = "running") = true
    · rw [if_pos hp]
      have hsid : e.1 = sid := by
        rw [Bool.and_eq_true] at hp
        exact of_decide_eq_true hp.1
      have hzero : (es.filter (fun e2 => e2.1 = sid && e2.2.status = "running")) = [] := by
        rw [List.filter_eq_nil_iff]
        intro a ha
        have hne : a.1 ≠ sid := by
          intro heq
          apply hnot
          rw [hsid, ← heq]
          exact List.mem_map_of_mem Prod.fst ha
        simp [hne]
      rw [hzero]
      simp
    · rw [if_neg hp]
      exact ih hes

theorem lookup_map_replace (k : String) (v : AgentTaskM) :
    ∀ l : RegState, (l.lookup k).isSome →
      (l.map (fun e => if e.1 = k then (k, v) else e)).lookup k = some v := by
  intro l
  induction l with
  | nil =>
    intro h
    simp [List.lookup] at h
  | cons e es ih =>
    intro h
    obtain ⟨a, b⟩ := e
    by_cases hk : a = k
    · simp only [List.map_cons]
      rw [if_pos (show ((a, b).1 = k) from hk)]
      simp [List.lookup]
    · simp only [List.map_cons]
      rw [if_neg (show ¬ ((a, b).1 = k) from hk)]
      have hbeq : (k == a) = false := by
        simp only [beq_eq_false_iff_ne, ne_eq]
        intro he
        exact hk he.symm
      simp only [List.lookup, hbeq]
      apply ih
      simp only [List.lookup, hbeq] at h
      exact h

theorem lookup_append_none (k : String) (v : AgentTaskM) :
    ∀ l : RegState, l.lookup k = none → (l ++ [(k, v)]).lookup k = some v := by
  intro l
  induction l with
  | nil =>
    intro _
    simp [List.lookup]
  | cons e es ih =>
    intro h
    obtain ⟨a, b⟩ := e
    by_cases hk : k = a
    · exfalso
      simp only [List.lookup] at h
      rw [show (k == a) = true from by simp [hk]] at h
      simp at h
    · have hbeq : (k == a) = false := by
        simp only [beq_eq_false_iff_ne, ne_eq]
        exact hk
      simp only [List.cons_append, List.lookup, hbeq]
      apply ih
      simp only [List.lookup, hbeq] at h
      exact h

theorem dictInsert_lookup (l : RegState) (k : String) (v : AgentTaskM) :
    (dictInsert l k v).lookup k = some v := by
  unfold dictInsert
  by_cases hmem : (l.lookup k).isSome
  · rw [if_pos hmem]
    exact lookup_map_replace k v l hmem
  · rw [if_neg hmem]
    have hnone : l.lookup k = none := by
      cases hl : l.lookup k with
      | none => rfl
      | some v2 => rw [hl] at hmem; simp at hmem
    exact lookup_append_none k v l hnone

/-- C8: every registry state reachable by a sequence of operations from
the empty registry holds at most one running task per session (the dict
keyed by session id admits one entry per key); and register_task on a
session whose existing task's handle is not done first sets that task's
cancel event and cancels its handle, in that order, before storing the
new running task under the session id. -/
theorem registry_single_running_and_register_cancels
    (ops : List RegOp) (l : RegState) (sid mid : String)
    (old : AgentTaskM) (now : Nat)
    (hlookup : l.lookup sid = some old) :
    (∀ s : String, runningCount (ops.foldl regStep []) s ≤ 1)
    ∧ (registerTask l sid mid false now).2 =
        [RegEffect.setCancelEvent sid old.message_id,
         RegEffect.cancelHandle sid old.message_id]
    ∧ (registerTask l sid mid false now).1.lookup sid =
        some ⟨mid, now, "running"⟩ := by
  refine ⟨?_, ?_, ?_⟩
  · intro s
    exact runningCount_le_one_of_nodup s (ops.foldl regStep []) (regFold_keysNodup ops)
  · simp only [registerTask, hlookup]
    rfl
  · show (dictInsert l sid ⟨mid, now, "running"⟩).lookup sid =
      some ⟨mid, now, "running"⟩
    exact dictInsert_lookup l sid ⟨mid, now, "running"⟩

theorem registry_single_running_witness :
    (∀ s : String, runningCount ([RegOp.register "s" "m1" false 0,
          RegOp.register "s" "m2" false 1].foldl regStep []) s ≤ 1)
    ∧ (registerTask [("s", ⟨"m1", 0, "running"⟩)] "s" "m2" false 1).2 =
        [RegEffect.setCancelEvent "s" "m1", RegEffect.cancelHandle "s" "m1"]
    ∧ (registerTask [("s", ⟨"m1", 0, "running"⟩)] "s" "m2" false 1).1.lookup "s" =
        some ⟨"m2", 1, "running"⟩ :=
  registry_single_running_and_register_cancels
    [RegOp.register "s" "m1" false 0, RegOp.register "s" "m2" false 1]
    [("s", ⟨"m1", 0, "running"⟩)] "s" "m2" ⟨"m1", 0, "running"⟩ 1 (by decide)

/- ===================================================================
   Section 6: tool-call delta accumulation (core/agent/executor.py,
   ReActAgent.run, streaming loop lines 163-184).

   A chunk from LLMProvider.generate_stream is either a plain text delta
   or a partial function call carrying an optional name and an optional
   arguments fragment.
   =================================================================== -/

/-- One chunk of the model stream. -/
inductive StreamChunk where
  | text (content : String)
  | functionCall (name : Option String) (arguments : Option String)
  deriving Repr, DecidableEq

/-- Name update: overwrite only when the delta carries a non-null name
(executor lines 179-181). -/
def accName (fn : Option String) (nm : Option String) : Option String :=
  match nm with
  | some n => some n
  | none => fn

/-- Arguments update: append only truthy (present and non-empty)
fragments (executor lines 182-184). -/
def accArgs (fa : String) (args : Option String) : String :=
  match args with
  | some a => if a = "" then fa else fa ++ a
  | none => fa

/-- Accumulator step over one stream chunk: text extends full_response,
function-call deltas update the captured name and arguments string. -/
def updAcc : (String × Option String × String) → StreamChunk →
    (String × Option String × String)
  | (fr, fn, fa), StreamChunk.text s => (fr ++ s, fn, fa)
  | (fr, fn, fa), StreamChunk.functionCall nm args =>
    (fr, accName fn nm, accArgs fa args)

/-- The (full_response, function_name, function_args) triple accumulated
over a whole stream. -/
def streamAcc (chunks : List StreamChunk) : String × Option String × String :=
  chunks.foldl updAcc ("", none, "")

/-- The non-null name carried by a delta, if any. -/
def nameOfDelta : StreamChunk → Option String
  | StreamChunk.functionCall (some n) _ => some n
  | _ => none

/-- The non-empty arguments fragment carried by a delta, if any. -/
def argFragmentOfDelta : StreamChunk → Option String
  | StreamChunk.functionCall _ (some a) => if a = "" then none else some a
  | _ => none

/-- Spec reading of C6: the name carried by the first delta whose name is
non-null. -/
def firstCarriedName (chunks : List StreamChunk) : Option String :=
  (chunks.filterMap nameOfDelta).head?

theorem join_shift (l : List String) :
    ∀ s : String, List.foldl (fun r x => r ++ x) s l = s ++ String.join l := by
  induction l with
  | nil =>
    intro s
    simp [String.join]
  | cons a t ih =>
    intro s
    rw [List.foldl_cons, ih (s ++ a)]
    have h2 : String.join (a :: t) = a ++ String.join t := by
      show List.foldl (fun r x => r ++ x) "" (a :: t) = a ++ String.join t
      rw [List.foldl_cons, ih ("" ++ a)]
      simp
    rw [h2, String.append_assoc]

theorem streamAcc_name_aux :
    ∀ (chunks : List StreamChunk) (fr : String) (fn : Option String) (fa : String),
      (List.foldl updAcc (fr, fn, fa) chunks).2.1 =
        (match (chunks.filterMap nameOfDelta).getLast? with
          | some n => some n
          | none => fn) := by
  intro chunks
  induction chunks with
  | nil =>
    intro fr fn fa
    simp
  | cons ch rest ih =>
    intro fr fn fa
    rw [List.foldl_cons]
    cases ch with
    | text s =>
      rw [show updAcc (fr, fn, fa) (StreamChunk.text s) = (fr ++ s, fn, fa) from rfl]
      rw [ih]
      rfl
    | functionCall nm args =>
      cases nm with
      | none =>
        rw [show updAcc (fr, fn, fa) (StreamChunk.functionCall none args) =
          (fr, fn, accArgs fa args) from rfl]
        rw [ih]
        rfl
      | some n =>
        rw [show updAcc (fr, fn, fa) (StreamChunk.functionCall (some n) args) =
          (fr, some n, accArgs fa args) from rfl]
        rw [ih]
        have hfm : (StreamChunk.functionCall (some n) args :: rest).filterMap
            nameOfDelta = n :: rest.filterMap nameOfDelta := by
          simp [List.filterMap_cons, nameOfDelta]
        rw [hfm, List.getLast?_cons]
        cases hrest : (rest.filterMap nameOfDelta).getLast? with
        | none => rfl
        | some m => rfl

theorem streamAcc_args_aux :
    ∀ (chunks : List StreamChunk) (fr : String) (fn : Option String) (fa : String),
      (List.foldl updAcc (fr, fn, fa) chunks).2.2 =
        fa ++ String.join (chunks.filterMap argFragmentOfDelta) := by
  intro chunks
  induction chunks with
  | nil =>
    intro fr fn fa
    simp [String.join]
  | cons ch rest ih =>
    intro fr fn fa
    rw [List.foldl_cons]
    cases ch with
    | text s =>
      rw [show updAcc (fr, fn, fa) (StreamChunk.text s) = (fr ++ s, fn, fa) from rfl]
      rw [ih]
      rfl
    | functionCall nm args =>
      rw [show updAcc (fr, fn, fa) (StreamChunk.functionCall nm args) =
        (fr, accName fn nm, accArgs fa args) from rfl]
      rw [ih]
      cases args with
      | none =>
        have hfm : (StreamChunk.functionCall nm none :: rest).filterMap
            argFragmentOfDelta = rest.filterMap argFragmentOfDelta := by
          simp [List.filterMap_cons, argFragmentOfDelta]
        rw [hfm]
        rfl
      | some a =>
        by_cases ha : a = ""
        · have hfm : (StreamChunk.functionCall nm (some a) :: rest).filterMap
              argFragmentOfDelta = rest.filterMap argFragmentOfDelta := by
            simp [List.filterMap_cons, argFragmentOfDelta, ha]
          rw [hfm]
          have haccs : accArgs fa (some a) = fa := by
            simp [accArgs, ha]
          rw [haccs]
        · have hfm : (StreamChunk.functionCall nm (some a) :: rest).filterMap
              argFragmentOfDelta = a :: rest.filterMap argFragmentOfDelta := by
            simp [List.filterMap_cons, argFragmentOfDelta, ha]
          rw [hfm]
          have hacc : accArgs fa (some a) = fa ++ a := by
            simp [accArgs, ha]
          rw [hacc]
          have hj : String.join (a :: rest.filterMap argFragmentOfDelta) =
              a ++ String.join (rest.filterMap argFragmentOfDelta) := by
            show List.foldl (fun r x => r ++ x) "" (a :: rest.filterMap argFragmentOfDelta) =
              a ++ String.join (rest.filterMap argFragmentOfDelta)
            rw [List.foldl_cons, join_shift]
            simp
          rw [hj, String.append_assoc]

/-- C6 counterexample: two deltas both carry a non-null name; the
accumulated name is the one from the second delta, not from the first
delta that carried a name. -/
theorem toolcall_accumulation_counterexample :
    (streamAcc [StreamChunk.functionCall (some "a") none,
                StreamChunk.functionCall (some "b") none]).2.1 = some "b"
    ∧ firstCarriedName [StreamChunk.functionCall (some "a") none,
                StreamChunk.functionCall (some "b") none] = some "a"
    ∧ some "b" ≠ some "a" := by
  refine ⟨by decide, by decide, by decide⟩

/-- C6 (amended): the captured tool name is the name carried by the last
delta whose name field is non-null (deltas with a null name never
overwrite it), and the accumulated arguments string is the concatenation,
in arrival order, of all non-empty argumentsDelta fragments. -/
theorem toolcall_accumulation (chunks : List StreamChunk) :
    (streamAcc chunks).2.1 = (chunks.filterMap nameOfDelta).getLast?
    ∧ (streamAcc chunks).2.2 =
      String.join (chunks.filterMap argFragmentOfDelta) := by
  constructor
  · rw [streamAcc, streamAcc_name_aux]
    cases h : (chunks.filterMap nameOfDelta).getLast? with
    | none => rfl
    | some n => rfl
  · rw [streamAcc, streamAcc_args_aux]
    simp

/- ===================================================================
   Section 7: ReActAgent.run (core/agent/executor.py).

   The model stream of each iteration is supplied as a script (a list of
   chunk lists); the registered tools are a partial map from tool name to
   an invocation function.  Invoking a Python coroutine can raise before
   the body runs (for example a TypeError when required keyword
   arguments are missing), so an invocation returns Except: an error is
   the raised exception's message, caught by the except-branch of run.
   Tool arguments are JSON objects with string values, and the json.loads
   parser is a parameter mapping an arguments string to `some` object or
   `none` for a JSONDecodeError (the loop then uses the empty object).
   The cancel event is an oracle read at each check point: check number k
   returns `c k`, and a set event corresponds to `c` being true from some
   index on.  The wrapped messages list fed back to the model is implicit
   in the script, and print logging is not modelled. -/

/-- JSON object arguments passed to a tool. -/
abbrev Args : Type := List (String × String)

/-- Events yielded by ReActAgent.run. -/
inductive AgentEvent where
  | cancelled (content : String) (partialContent : Option String) (step : Nat)
  | chunk (content : String) (step : Nat)
  | action (content tool : String) (args : Args) (step : Nat)
  | observation (content : String) (success : Bool) (step : Nat)
  | error (content : String) (step : Nat)
  | finalAnswer (content : String) (step : Nat)
  deriving Repr, DecidableEq

/-- The terminal message of the loop after max_iterations. -/
def maxIterationsMessage : String :=
  "Task incomplete: reached maximum iterations. Please try breaking down the task into smaller steps."

/-- Stream consumption of one iteration: before each chunk the cancel
event is checked (oracle index k); text chunks are emitted immediately
and accumulated, function-call deltas update the (name, args)
accumulator. Returns the emitted events, the final accumulator (none
when cancelled mid-stream) and the next oracle index. -/
def consumeStream (c : Nat → Bool) :
    List StreamChunk → Nat → Nat → (String × Option String × String) →
      (List AgentEvent × Option (String × Option String × String) × Nat)
  | [], _, k, acc => ([], some acc, k)
  | ch :: rest, step, k, (fr, fn, fa) =>
    if c k then
      ([AgentEvent.cancelled "Response cancelled by user" (some fr) step], none, k + 1)
    else
      match ch with
      | StreamChunk.text s =>
        let r := consumeStream c rest step (k + 1) (fr ++ s, fn, fa)
        (AgentEvent.chunk s step :: r.1, r.2)
      | StreamChunk.functionCall nm args =>
        consumeStream c rest step (k + 1) (fr, accName fn nm, accArgs fa args)

/-- Events after the stream closed with no registered tool call: return
silently when text was streamed, emit the no-response error otherwise. -/
def noToolEvents (fr : String) (step : Nat) : List AgentEvent :=
  if fr = "" then [AgentEvent.error "Agent did not provide a response" step] else []

/-- The iteration loop of ReActAgent.run. `remaining` counts iterations
left, `step` is the 1-based iteration number and `k` the cancel-oracle
index. -/
def runAux (tools : String → Option (Args → Except String ToolResultM))
    (parse : String → Option Args) (c : Nat → Bool) (maxIter : Nat) :
    Nat → Nat → Nat → List (List StreamChunk) → List AgentEvent
  | 0, _, _, _ => [AgentEvent.finalAnswer maxIterationsMessage maxIter]
  | remaining + 1, step, k, script =>
    if c k then
      [AgentEvent.cancelled "Response cancelled by user" none step]
    else
      let r := consumeStream c (script.headD []) step (k + 1) ("", none, "")
      match r.2.1 with
      | none => r.1
      | some (fr, fn, fa) =>
        match fn with
        | some n =>
          if n = "" then
            r.1 ++ noToolEvents fr step
          else
            match tools n with
            | some f =>
              let args := (parse fa).getD []
              match f args with
              | Except.ok res =>
                let obs := if res.success then res.output
                  else "Error: " ++ res.error.getD "None"
                r.1 ++ [AgentEvent.action ("Using tool: " ++ n) n args step,
                        AgentEvent.observation obs res.success step]
                  ++ runAux tools parse c maxIter remaining (step + 1) r.2.2 script.tail
              | Except.error e =>
                r.1 ++ [AgentEvent.action ("Using tool: " ++ n) n args step,
                        AgentEvent.error ("Agent error: " ++ e) step]
            | none => r.1 ++ noToolEvents fr step
        | none => r.1 ++ noToolEvents fr step

/-- ReActAgent.run as the sequence of events it yields. -/
def runAgent (tools : String → Option (Args → Except String ToolResultM))
    (parse : String → Option Args) (c : Nat → Bool) (maxIter : Nat)
    (script : List (List StreamChunk)) : List AgentEvent :=
  runAux tools parse c maxIter maxIter 1 0 script

/-- Keyword binding of FileEditTool.execute: calling the coroutine with
missing required arguments raises TypeError before the body runs. -/
def fileEditToolCall (fs : FileSystem) (args : Args) :
    Except String (FileSystem × ToolResultM) :=
  match args.lookup "path", args.lookup "old_content", args.lookup "new_content" with
  | some p, some o, some n => Except.ok (fileEditExecute fs p o n)
  | _, _, _ =>
    Except.error "FileEditTool.execute missing required positional arguments"

/-- C5: when the model requests the registered tool file_edit with an
arguments string that is not valid JSON, the loop parses the args as the
empty object, emits the action event, and the invocation of the tool with
no arguments raises, so the run terminates with an error event: no
observation event is emitted and no further step runs, contrary to the
claim that the loop continues. -/
theorem malformed_args_terminates_run :
    runAgent (fun n => if n = "file_edit" then
        some (fun args => (fileEditToolCall (fun _ => none) args).map Prod.snd)
      else none)
      (fun _ => none) (fun _ => false) 10
      [[StreamChunk.functionCall (some "file_edit") (some "not valid json")]] =
      [AgentEvent.action "Using tool: file_edit" "file_edit" [] 1,
       AgentEvent.error
         ("Agent error: FileEditTool.execute missing required positional arguments") 1] := by
  decide

/-- The step an event belongs to. -/
def eventStep : AgentEvent → Nat
  | AgentEvent.cancelled _ _ s => s
  | AgentEvent.chunk _ s => s
  | AgentEvent.action _ _ _ s => s
  | AgentEvent.observation _ _ s => s
  | AgentEvent.error _ s => s
  | AgentEvent.finalAnswer _ s => s

/-- Phase of an event inside its step: streamed events first, then the
action, then the observation or error, the terminal answer last. -/
def eventPhase : AgentEvent → Nat
  | AgentEvent.cancelled _ _ _ => 0
  | AgentEvent.chunk _ _ => 0
  | AgentEvent.action _ _ _ _ => 1
  | AgentEvent.observation _ _ _ => 2
  | AgentEvent.error _ _ => 2
  | AgentEvent.finalAnswer _ _ => 3

/-- Combined emission key: events are yielded in nondecreasing key order. -/
def eventKey (e : AgentEvent) : Nat := 4 * eventStep e + eventPhase e

theorem consumeStream_key (c : Nat → Bool) :
    ∀ (chunks : List StreamChunk) (step k : Nat)
      (acc : String × Option String × String),
      ∀ e ∈ (consumeStream c chunks step k acc).1, eventKey e = 4 * step := by
  intro chunks
  induction chunks with
  | nil =>
    intro step k acc e he
    obtain ⟨fr, fn, fa⟩ := acc
    simp [consumeStream] at he
  | cons ch rest ih =>
    intro step k acc e he
    obtain ⟨fr, fn, fa⟩ := acc
    simp only [consumeStream] at he
    by_cases hck : c k
    · rw [if_pos hck] at he
      simp at he
      rw [he]
      simp [eventKey, eventStep, eventPhase]
    · rw [if_neg hck] at he
      cases ch with
      | text s =>
        simp only [List.mem_cons] at he
        rcases he with he1 | he2
        · rw [he1]
          simp [eventKey, eventStep, eventPhase]
        · exact ih step (k + 1) (fr ++ s, fn, fa) e he2
      | functionCall nm args =>
        exact ih step (k + 1) (fr, accName fn nm, accArgs fa args) e he

theorem pairwise_const_key (v : Nat) :
    ∀ l : List AgentEvent, (∀ e ∈ l, eventKey e = v) →
      l.Pairwise (fun a b => eventKey a ≤ eventKey b) := by
  intro l
  induction l with
  | nil =>
    intro _
    exact List.Pairwise.nil
  | cons a t ih =>
    intro h
    rw [List.pairwise_cons]
    refine ⟨?_, ih (fun e he => h e (by simp [he]))⟩
    intro b hb
    rw [h a (by simp), h b (by simp [hb])]

theorem bound_sorted_block (evs tail : List AgentEvent) (step : Nat)
    (hevs : ∀ e ∈ evs, eventKey e = 4 * step)
    (htail : ∀ e ∈ tail, 4 * step ≤ eventKey e)
    (htailSorted : tail.Pairwise (fun a b => eventKey a ≤ eventKey b)) :
    (∀ e ∈ evs ++ tail, 4 * step - 1 ≤ eventKey e)
    ∧ (evs ++ tail).Pairwise (fun a b => eventKey a ≤ eventKey b) := by
  constructor
  · intro e he
    rcases List.mem_append.mp he with h1 | h2
    · rw [hevs e h1]
      omega
    · have := htail e h2
      omega
  · rw [List.pairwise_append]
    refine ⟨pairwise_const_key (4 * step) evs hevs, htailSorted, ?_⟩
    intro a ha b hb
    rw [hevs a ha]
    exact htail b hb

theorem noToolEvents_key (fr : String) (step : Nat) :
    (∀ e ∈ noToolEvents fr step, eventKey e = 4 * step + 2)
    ∧ (noToolEvents fr step).Pairwise (fun a b => eventKey a ≤ eventKey b) := by
  unfold noToolEvents
  by_cases hfr : fr = ""
  · rw [if_pos hfr]
    constructor
    · intro e he
      simp only [List.mem_singleton] at he
      rw [he]
      rfl
    · exact List.pairwise_singleton _ _
  · rw [if_neg hfr]
    exact ⟨fun e he => absurd he (List.not_mem_nil e), List.Pairwise.nil⟩

theorem runAux_key_bound_sorted
    (tools : String → Option (Args → Except String ToolResultM))
    (parse : String → Option Args) (c : Nat → Bool) (maxIter : Nat) :
    ∀ (remaining step k : Nat) (script : List (List StreamChunk)),
      step + remaining = maxIter + 1 →
      (∀ e ∈ runAux tools parse c maxIter remaining step k script,
        4 * step - 1 ≤ eventKey e)
      ∧ (runAux tools parse c maxIter remaining step k script).Pairwise
          (fun a b => eventKey a ≤ eventKey b) := by
  intro remaining
  induction remaining with
  | zero =>
    intro step k script hstep
    constructor
    · intro e he
      simp only [runAux, List.mem_singleton] at he
      rw [he]
      simp only [eventKey, eventStep, eventPhase]
      omega
    · simp only [runAux]
      exact List.pairwise_singleton _ _
  | succ remaining ih =>
    intro step k script hstep
    simp only [runAux]
    by_cases hck : c k = true
    · rw [if_pos hck]
      constructor
      · intro e he
        simp only [List.mem_singleton] at he
        rw [he]
        simp only [eventKey, eventStep, eventPhase]
        omega
      · exact List.pairwise_singleton _ _
    · rw [if_neg hck]
      have hkey := consumeStream_key c (script.headD []) step (k + 1) ("", none, "")
      have hnoTool : ∀ fr2 : String,
          (∀ e ∈ (consumeStream c (script.headD []) step (k + 1) ("", none, "")).1 ++
            noToolEvents fr2 step, 4 * step - 1 ≤ eventKey e)
          ∧ ((consumeStream c (script.headD []) step (k + 1) ("", none, "")).1 ++
            noToolEvents fr2 step).Pairwise (fun a b => eventKey a ≤ eventKey b) := by
        intro fr2
        obtain ⟨hnt1, hnt2⟩ := noToolEvents_key fr2 step
        exact bound_sorted_block _ _ step hkey
          (fun e he => by rw [hnt1 e he]; omega) hnt2
      split
      · exact ⟨fun e he => by rw [hkey e he]; omega, pairwise_const_key _ _ hkey⟩
      · split
        · split
          · exact hnoTool _
          · split
            · split
              · -- registered tool call succeeded: action, observation, next step
                rename_i fr fn fa n hne f htools res hres
                obtain ⟨ihb, ihs⟩ := ih (step + 1)
                  ((consumeStream c (script.headD []) step (k + 1) ("", none, "")).2.2)
                  script.tail (by omega)
                rw [List.append_assoc]
                apply bound_sorted_block _ _ step hkey
                · intro e he
                  simp only [List.cons_append, List.nil_append, List.mem_cons,
                    List.mem_append] at he
                  rcases he with he1 | he2 | he3
                  · rw [he1]
                    simp only [eventKey, eventStep, eventPhase]
                    omega
                  · rw [he2]
                    simp only [eventKey, eventStep, eventPhase]
                    omega
                  · have := ihb e he3
                    omega
                · rw [List.pairwise_append]
                  refine ⟨?_, ihs, ?_⟩
                  · rw [List.pairwise_cons]
                    refine ⟨?_, List.pairwise_singleton _ _⟩
                    intro b hb
                    simp only [List.mem_singleton] at hb
                    rw [hb]
                    simp only [eventKey, eventStep, eventPhase]
                    omega
                  · intro a ha b hb
                    have hbk := ihb b hb
                    simp only [List.mem_cons, List.mem_singleton] at ha
                    rcases ha with ha1 | ha2
                    · rw [ha1]
                      simp only [eventKey, eventStep, eventPhase] at hbk ⊢
                      omega
                    · rcases ha2 with ha2 | hfalse
                      · rw [ha2]
                        simp only [eventKey, eventStep, eventPhase] at hbk ⊢
                        omega
                      · exact absurd hfalse (List.not_mem_nil a)
              · -- tool invocation raised: action then terminal error event
                rename_i fr fn fa n hne f htools e2 hres
                apply bound_sorted_block _ _ step hkey
                · intro e he
                  simp only [List.mem_cons, List.mem_singleton] at he
                  rcases he with he1 | he2
                  · rw [he1]
                    simp only [eventKey, eventStep, eventPhase]
                    omega
                  · rcases he2 with he2 | hfalse
                    · rw [he2]
                      simp only [eventKey, eventStep, eventPhase]
                      omega
                    · exact absurd hfalse (List.not_mem_nil e)
                · rw [List.pairwise_cons]
                  refine ⟨?_, List.pairwise_singleton _ _⟩
                  intro b hb
                  simp only [List.mem_singleton] at hb
                  rw [hb]
                  simp only [eventKey, eventStep, eventPhase]
                  omega
            · exact hnoTool _
        · exact hnoTool _

theorem key_lt_imp_index_lt (evs : List AgentEvent)
    (hs : evs.Pairwise (fun a b => eventKey a ≤ eventKey b))
    (i j : Nat) (a b : AgentEvent) (ha : evs[i]? = some a) (hb : evs[j]? = some b)
    (hk : eventKey a < eventKey b) : i < j := by
  obtain ⟨hi, hgi⟩ := List.getElem?_eq_some.mp ha
  obtain ⟨hj, hgj⟩ := List.getElem?_eq_some.mp hb
  by_contra hij
  push_neg at hij
  rcases Nat.lt_or_ge j i with hji | hji
  · have hp := List.pairwise_iff_get.mp hs ⟨j, hj⟩ ⟨i, hi⟩ hji
    simp only [List.get_eq_getElem, hgi, hgj] at hp
    omega
  · have : i = j := Nat.le_antisymm hji hij
    subst this
    rw [hgi] at hgj
    rw [hgj] at hk
    omega

/-- C9: in every event sequence yielded by ReActAgent.run, every text
chunk event of step N is emitted strictly before the action event of
step N, and the observation event of step N is emitted strictly before
any event of step N+1. -/
theorem agent_event_ordering
    (tools : String → Option (Args → Except String ToolResultM))
    (parse : String → Option Args) (c : Nat → Bool) (maxIter : Nat)
    (script : List (List StreamChunk)) :
    (∀ (i j N : Nat) (ct cont tool : String) (args : Args),
      (runAgent tools parse c maxIter script)[i]? =
        some (AgentEvent.chunk ct N) →
      (runAgent tools parse c maxIter script)[j]? =
        some (AgentEvent.action cont tool args N) →
      i < j)
    ∧ (∀ (i j N : Nat) (cont : String) (success : Bool) (e : AgentEvent),
      (runAgent tools parse c maxIter script)[i]? =
        some (AgentEvent.observation cont success N) →
      (runAgent tools parse c maxIter script)[j]? = some e →
      eventStep e = N + 1 →
      i < j) := by
  have hs : (runAgent tools parse c maxIter script).Pairwise
      (fun a b => eventKey a ≤ eventKey b) :=
    (runAux_key_bound_sorted tools parse c maxIter maxIter 1 0 script (by omega)).2
  constructor
  · intro i j N ct cont tool args hi hj
    apply key_lt_imp_index_lt _ hs i j _ _ hi hj
    simp only [eventKey, eventStep, eventPhase]
    omega
  · intro i j N cont success e hi hj hstep
    apply key_lt_imp_index_lt _ hs i j _ _ hi hj
    simp only [eventKey, eventStep, eventPhase] at hstep ⊢
    omega

/-- One registered tool that always succeeds, for concrete runs. -/
def wTools : String → Option (Args → Except String ToolResultM) :=
  fun n => if n = "t" then some (fun _ => Except.ok ⟨true, "ok", none⟩) else none

/-- A two-iteration model script: a text chunk and a tool call, then a
closing text chunk. -/
def wScript : List (List StreamChunk) :=
  [[StreamChunk.text "hi", StreamChunk.functionCall (some "t") (some "x")],
   [StreamChunk.text "done"]]

theorem agent_event_ordering_witness :
    (runAgent wTools (fun _ => some []) (fun _ => false) 2 wScript)[0]? =
      some (AgentEvent.chunk "hi" 1)
    ∧ (runAgent wTools (fun _ => some []) (fun _ => false) 2 wScript)[1]? =
      some (AgentEvent.action "Using tool: t" "t" [] 1)
    ∧ (runAgent wTools (fun _ => some []) (fun _ => false) 2 wScript)[2]? =
      some (AgentEvent.observation "ok" true 1)
    ∧ (runAgent wTools (fun _ => some []) (fun _ => false) 2 wScript)[3]? =
      some (AgentEvent.chunk "done" 2)
    ∧ (0 : Nat) < 1 ∧ (2 : Nat) < 3 :=
  ⟨by decide, by decide, by decide, by decide,
   (agent_event_ordering wTools (fun _ => some []) (fun _ => false) 2 wScript).1
     0 1 1 "hi" "Using tool: t" "t" [] (by decide) (by decide),
   (agent_event_ordering wTools (fun _ => some []) (fun _ => false) 2 wScript).2
     2 3 1 "ok" true (AgentEvent.chunk "done" 2) (by decide) (by decide) (by decide)⟩

/-! ### Section 8: WebSocket chat handler (api/websocket/chat_handler.py) -/

/-- Frames sent by the handler over the websocket. `end` frames are split
by their payload: `endOk` carries the saved message id, `endCancelled`
is `end` with cancelled:true, `endError` is `end` with error:true. -/
inductive OutFrame where
  | errorF (content : String)
  | userMessageSaved (mid : Nat)
  | startF
  | cancelledF (content : String) (partialContent : Option String)
  | actionF (tool : String) (args : Args) (step : Nat)
  | observationF (content : String) (success : Bool) (step : Nat)
  | chunkF (content : String)
  | cancelAcknowledged
  | endOk (mid : Nat)
  | endCancelled
  | endError
  deriving Repr, DecidableEq

/-- Frames received from the client (handle_connection lines 65-83). -/
inductive InFrame where
  | message (content : String)
  | cancel
  deriving Repr, DecidableEq

/-- A pending agent action row (chat_handler lines 387-393). -/
structure ActionRec where
  action_type : String
  action_input : Args
  action_output : Option (String × Bool)
  status : String
  deriving Repr, DecidableEq

/-- Update of agent_actions[-1] on an observation (lines 407-413). -/
def updateLastAction (acts : List ActionRec) (obs : String) (success : Bool) :
    List ActionRec :=
  match acts.getLast? with
  | none => acts
  | some a =>
    let a2 : ActionRec := { a with
      action_output := some (obs, success),
      status := if success then "success" else "error" }
    acts.dropLast ++ [a2]

/-- Events on which the handler loop breaks (cancelled and error). -/
def isBreakEvent : AgentEvent → Bool
  | AgentEvent.cancelled _ _ _ => true
  | AgentEvent.error _ _ => true
  | _ => false

/-- The frame the handler forwards for each agent event (final_answer is
forwarded as a chunk frame, lines 425-433). -/
def frameOfEvent : AgentEvent → OutFrame
  | AgentEvent.cancelled c pc _ => OutFrame.cancelledF c pc
  | AgentEvent.chunk c _ => OutFrame.chunkF c
  | AgentEvent.action _ tool args step => OutFrame.actionF tool args step
  | AgentEvent.observation obs success step =>
    OutFrame.observationF obs success step
  | AgentEvent.error msg _ => OutFrame.errorF msg
  | AgentEvent.finalAnswer ans _ => OutFrame.chunkF ans

/-- The event-translation loop of _handle_agent_response_impl (lines
344-456): accumulates assistant content and agent actions, forwards each
event as a frame, and breaks on cancelled (cancelled flag set) or error
(has_error flag set). Returns (frames, content, actions, has_error,
cancelled). -/
def processAgentEvents :
    List AgentEvent → String → List ActionRec →
      List OutFrame × String × List ActionRec × Bool × Bool
  | [], content, acts => ([], content, acts, false, false)
  | AgentEvent.cancelled c pc _ :: _, content, acts =>
    ([OutFrame.cancelledF c pc], content, acts, false, true)
  | AgentEvent.chunk c _ :: rest, content, acts =>
    let r := processAgentEvents rest (content ++ c) acts
    (OutFrame.chunkF c :: r.1, r.2)
  | AgentEvent.action _ tool args step :: rest, content, acts =>
    let r := processAgentEvents rest content
      (acts ++ [⟨tool, args, none, "pending"⟩])
    (OutFrame.actionF tool args step :: r.1, r.2)
  | AgentEvent.observation obs success step :: rest, content, acts =>
    let r := processAgentEvents rest content (updateLastAction acts obs success)
    (OutFrame.observationF obs success step :: r.1, r.2)
  | AgentEvent.error msg _ :: _, content, acts =>
    ([OutFrame.errorF msg], content, acts, true, false)
  | AgentEvent.finalAnswer ans _ :: rest, content, acts =>
    let r := processAgentEvents rest (content ++ ans) acts
    (OutFrame.chunkF ans :: r.1, r.2)

/-- One call of _handle_agent_response_impl: the cancel event created at
line 331 is fresh and, because handle_connection awaits the whole turn
before reading the next inbound frame, nothing can set it during the
turn, so the agent runs with a never-set cancel oracle. After the loop
the assistant message is saved and end{message_id} sent only when neither
has_error nor cancelled is set (lines 465-510); the database is modelled
by the id counter nextId. -/
def agentTurn (tools : String → Option (Args → Except String ToolResultM))
    (parse : String → Option Args) (script : List (List StreamChunk))
    (maxIter nextId : Nat) : List OutFrame × Nat :=
  let r := processAgentEvents
    (runAgent tools parse (fun _ => false) maxIter script) "" []
  if !r.2.2.2.1 && !r.2.2.2.2 then
    (OutFrame.startF :: r.1 ++ [OutFrame.endOk nextId], nextId + 1)
  else if r.2.2.2.2 then
    (OutFrame.startF :: r.1 ++ [OutFrame.endCancelled], nextId)
  else
    (OutFrame.startF :: r.1 ++ [OutFrame.endError], nextId)

/-- The main frame loop of handle_connection (lines 60-83): inbound
frames are processed strictly in sequence, a message frame saves the
user message and then awaits the whole agent turn inline; each turn
consumes the next model script. When a cancel frame is handled,
self.cancel_event is None (it is reset in the finally block before the
turn returns) and self.current_agent_task is None (it is assigned only
in __init__), so the cancel branch sends only cancel_acknowledged. -/
def handleFrames (tools : String → Option (Args → Except String ToolResultM))
    (parse : String → Option Args) (maxIter : Nat) :
    List InFrame → List (List (List StreamChunk)) → Nat → List OutFrame
  | [], _, _ => []
  | InFrame.message _ :: rest, scripts, nextId =>
    let t := agentTurn tools parse (scripts.headD []) maxIter (nextId + 1)
    OutFrame.userMessageSaved nextId ::
      (t.1 ++ handleFrames tools parse maxIter rest scripts.tail t.2)
  | InFrame.cancel :: rest, scripts, nextId =>
    OutFrame.cancelAcknowledged :: handleFrames tools parse maxIter rest scripts nextId

/-- Frames that signal a cancelled turn to the client. -/
def isCancelFrame : OutFrame → Bool
  | OutFrame.cancelledF _ _ => true
  | OutFrame.endCancelled => true
  | _ => false

theorem consumeStream_nocancel :
    ∀ (chunks : List StreamChunk) (step k : Nat)
      (acc : String × Option String × String),
      (consumeStream (fun _ => false) chunks step k acc).2.1 =
        some (List.foldl updAcc acc chunks)
      ∧ ∀ e ∈ (consumeStream (fun _ => false) chunks step k acc).1,
          isBreakEvent e = false := by
  intro chunks
  induction chunks with
  | nil =>
    intro step k acc
    obtain ⟨fr, fn, fa⟩ := acc
    exact ⟨rfl, by intro e he; simp [consumeStream] at he⟩
  | cons ch rest ih =>
    intro step k acc
    obtain ⟨fr, fn, fa⟩ := acc
    simp only [consumeStream]
    rw [if_neg (by simp)]
    cases ch with
    | text s =>
      refine ⟨?_, ?_⟩
      · show (consumeStream (fun _ => false) rest step (k + 1) (fr ++ s, fn, fa)).2.1 = _
        rw [(ih step (k + 1) (fr ++ s, fn, fa)).1]
        simp only [List.foldl_cons, updAcc]
      · intro e he
        have he2 : e = AgentEvent.chunk s step ∨
            e ∈ (consumeStream (fun _ => false) rest step (k + 1) (fr ++ s, fn, fa)).1 := by
          simpa using he
        rcases he2 with rfl | he2
        · rfl
        · exact (ih step (k + 1) (fr ++ s, fn, fa)).2 e he2
    | functionCall nm args =>
      exact ih step (k + 1) (fr, accName fn nm, accArgs fa args)

theorem processAgentEvents_no_break :
    ∀ (evs : List AgentEvent) (content : String) (acts : List ActionRec),
      (∀ e ∈ evs, isBreakEvent e = false) →
      (processAgentEvents evs content acts).1 = evs.map frameOfEvent
      ∧ (processAgentEvents evs content acts).2.2.2.1 = false
      ∧ (processAgentEvents evs content acts).2.2.2.2 = false := by
  intro evs
  induction evs with
  | nil =>
    intro content acts h
    exact ⟨rfl, rfl, rfl⟩
  | cons e rest ih =>
    intro content acts h
    have hrest : ∀ x ∈ rest, isBreakEvent x = false :=
      fun x hx => h x (List.mem_cons_of_mem e hx)
    have he := h e (List.mem_cons_self e rest)
    cases e with
    | cancelled c pc s => exact absurd he (by simp [isBreakEvent])
    | error msg s => exact absurd he (by simp [isBreakEvent])
    | chunk c s =>
      obtain ⟨h1, h2, h3⟩ := ih (content ++ c) acts hrest
      simp only [processAgentEvents, List.map_cons, frameOfEvent]
      exact ⟨by rw [h1], h2, h3⟩
    | action c tool args s =>
      obtain ⟨h1, h2, h3⟩ := ih content (acts ++ [⟨tool, args, none, "pending"⟩]) hrest
      simp only [processAgentEvents, List.map_cons, frameOfEvent]
      exact ⟨by rw [h1], h2, h3⟩
    | observation obs success s =>
      obtain ⟨h1, h2, h3⟩ := ih content (updateLastAction acts obs success) hrest
      simp only [processAgentEvents, List.map_cons, frameOfEvent]
      exact ⟨by rw [h1], h2, h3⟩
    | finalAnswer ans s =>
      obtain ⟨h1, h2, h3⟩ := ih (content ++ ans) acts hrest
      simp only [processAgentEvents, List.map_cons, frameOfEvent]
      exact ⟨by rw [h1], h2, h3⟩

/-- One model-stream iteration ends with a registered tool call that
executes without raising: the accumulated function name is non-empty and
registered, and the tool invocation returns a result. -/
def iterEndsWithToolCall (tools : String → Option (Args → Except String ToolResultM))
    (parse : String → Option Args) (chunks : List StreamChunk) : Prop :=
  ∃ fr n fa f res,
    List.foldl updAcc ("", none, "") chunks = (fr, some n, fa)
    ∧ n ≠ "" ∧ tools n = some f
    ∧ f ((parse fa).getD []) = Except.ok res

theorem runAux_succ_eq
    (tools : String → Option (Args → Except String ToolResultM))
    (parse : String → Option Args) (maxIter remaining step k : Nat)
    (script : List (List StreamChunk)) (fr n fa : String)
    (f : Args → Except String ToolResultM) (res : ToolResultM)
    (hacc : (consumeStream (fun _ => false) (script.headD []) step (k + 1)
      ("", none, "")).2.1 = some (fr, some n, fa))
    (hne : n ≠ "") (htool : tools n = some f)
    (hok : f ((parse fa).getD []) = Except.ok res) :
    runAux tools parse (fun _ => false) maxIter (remaining + 1) step k script =
      (consumeStream (fun _ => false) (script.headD []) step (k + 1)
        ("", none, "")).1 ++
      [AgentEvent.action ("Using tool: " ++ n) n ((parse fa).getD []) step,
       AgentEvent.observation
         (if res.success then res.output else "Error: " ++ res.error.getD "None")
         res.success step] ++
      runAux tools parse (fun _ => false) maxIter remaining (step + 1)
        (consumeStream (fun _ => false) (script.headD []) step (k + 1)
          ("", none, "")).2.2 script.tail := by
  simp only [runAux]
  rw [if_neg (by simp), hacc]
  split
  · rename_i heq
    cases heq
  · rename_i fr2 fn2 fa2 heq
    injection heq with hpair
    injection hpair with h1 h23
    injection h23 with h2 h3
    subst h1
    subst h3
    subst h2
    split
    · rename_i n3 heq2
      injection heq2 with hn3
      subst hn3
      rw [if_neg hne]
      split
      · rename_i f2 heq3
        rw [htool] at heq3
        injection heq3 with hf
        subst hf
        split
        · rename_i res2 heq4
          rw [hok] at heq4
          injection heq4 with hres
          subst hres
          simp [List.append_assoc]
        · rename_i e2 heq4
          rw [hok] at heq4
          cases heq4
      · rename_i heq3
        rw [htool] at heq3
        cases heq3
    · rename_i heq2
      cases heq2

theorem runAux_all_tools
    (tools : String → Option (Args → Except String ToolResultM))
    (parse : String → Option Args) (maxIter : Nat) :
    ∀ (remaining step k : Nat) (script : List (List StreamChunk)),
      (∀ i < remaining, iterEndsWithToolCall tools parse ((script.drop i).headD [])) →
      ∃ body,
        runAux tools parse (fun _ => false) maxIter remaining step k script =
          body ++ [AgentEvent.finalAnswer maxIterationsMessage maxIter]
        ∧ (∀ e ∈ body, isBreakEvent e = false)
        ∧ (remaining = 0 → body = [])
        ∧ (0 < remaining → ∃ bodyPre obs succ,
            body = bodyPre ++
              [AgentEvent.observation obs succ (step + remaining - 1)]) := by
  intro remaining
  induction remaining with
  | zero =>
    intro step k script h
    refine ⟨[], rfl, by intro e he; simp at he, fun _ => rfl, ?_⟩
    intro hr
    omega
  | succ remaining ih =>
    intro step k script h
    obtain ⟨fr, n, fa, f, res, hfold, hne, htool, hok⟩ := by
      have := h 0 (Nat.succ_pos _)
      rwa [List.drop_zero] at this
    have hacc : (consumeStream (fun _ => false) (script.headD []) step (k + 1)
        ("", none, "")).2.1 = some (fr, some n, fa) := by
      rw [(consumeStream_nocancel (script.headD []) step (k + 1) ("", none, "")).1,
        hfold]
    have hevs := (consumeStream_nocancel (script.headD []) step (k + 1)
      ("", none, "")).2
    have hrec : ∀ i < remaining,
        iterEndsWithToolCall tools parse ((script.tail.drop i).headD []) := by
      intro i hi
      have := h (i + 1) (by omega)
      rwa [show script.drop (i + 1) = script.tail.drop i by
        rw [← List.drop_one, List.drop_drop, Nat.add_comm]] at this
    obtain ⟨body2, hb1, hb2, hb3, hb4⟩ := ih (step + 1)
      (consumeStream (fun _ => false) (script.headD []) step (k + 1)
        ("", none, "")).2.2 script.tail hrec
    rw [runAux_succ_eq tools parse maxIter remaining step k script fr n fa f res
      hacc hne htool hok]
    refine ⟨(consumeStream (fun _ => false) (script.headD []) step (k + 1)
        ("", none, "")).1 ++
      [AgentEvent.action ("Using tool: " ++ n) n ((parse fa).getD []) step,
       AgentEvent.observation
         (if res.success then res.output else "Error: " ++ res.error.getD "None")
         res.success step] ++ body2, ?_, ?_, ?_, ?_⟩
    · rw [hb1]
      simp [List.append_assoc]
    · intro e he
      rcases List.mem_append.mp he with h12 | h3
      · rcases List.mem_append.mp h12 with h1 | h2
        · exact hevs e h1
        · simp only [List.mem_cons, List.not_mem_nil, or_false] at h2
          rcases h2 with rfl | rfl
          · rfl
          · rfl
      · exact hb2 e h3
    · intro habs
      cases habs
    · intro hr
      rcases Nat.eq_zero_or_pos remaining with hz | hp
      · subst hz
        rw [hb3 rfl]
        rw [show step + (0 + 1) - 1 = step from by omega]
        exact ⟨(consumeStream (fun _ => false) (script.headD []) step (k + 1)
            ("", none, "")).1 ++
          [AgentEvent.action ("Using tool: " ++ n) n ((parse fa).getD []) step],
          (if res.success then res.output
            else "Error: " ++ res.error.getD "None"), res.success,
          by simp [List.append_assoc]⟩
      · obtain ⟨bodyPre2, obs2, succ2, hbp⟩ := hb4 hp
        rw [hbp]
        rw [show step + (remaining + 1) - 1 = step + 1 + remaining - 1 from by omega]
        exact ⟨(consumeStream (fun _ => false) (script.headD []) step (k + 1)
            ("", none, "")).1 ++
          [AgentEvent.action ("Using tool: " ++ n) n ((parse fa).getD []) step,
           AgentEvent.observation
             (if res.success then res.output
               else "Error: " ++ res.error.getD "None") res.success step] ++
          bodyPre2, obs2, succ2, by simp [List.append_assoc]⟩

/-- C7: for every run in which each of the maxIterations iterations ends
with a registered tool call that executes, the handler emits, after the
last observation (which belongs to step maxIterations), exactly one
explanatory chunk frame carrying the max-iterations message (which
contains the string "reached maximum iterations"), immediately followed
by the end frame with the saved message id, and nothing else. -/
theorem max_iterations_terminal_chunk
    (tools : String → Option (Args → Except String ToolResultM))
    (parse : String → Option Args) (script : List (List StreamChunk))
    (maxIter nextId : Nat) (hpos : 0 < maxIter)
    (hall : ∀ i < maxIter, iterEndsWithToolCall tools parse ((script.drop i).headD [])) :
    strContains maxIterationsMessage "reached maximum iterations" = true
    ∧ ∃ pre obs succ,
      (agentTurn tools parse script maxIter nextId).1 =
        OutFrame.startF :: (pre ++
          [OutFrame.observationF obs succ maxIter,
           OutFrame.chunkF maxIterationsMessage, OutFrame.endOk nextId]) := by
  obtain ⟨body, hb1, hb2, hb3, hb4⟩ :=
    runAux_all_tools tools parse maxIter maxIter 1 0 script hall
  obtain ⟨bodyPre, obs, succ, hbp⟩ := hb4 hpos
  have hnb : ∀ e ∈ body ++ [AgentEvent.finalAnswer maxIterationsMessage maxIter],
      isBreakEvent e = false := by
    intro e he
    rcases List.mem_append.mp he with h1 | h2
    · exact hb2 e h1
    · simp only [List.mem_singleton] at h2
      rw [h2]
      rfl
  obtain ⟨hf, herr, hcanc⟩ := processAgentEvents_no_break
    (body ++ [AgentEvent.finalAnswer maxIterationsMessage maxIter]) "" [] hnb
  refine ⟨by decide, List.map frameOfEvent bodyPre, obs, succ, ?_⟩
  simp only [agentTurn, runAgent]
  rw [hb1, herr, hcanc, hf, hbp]
  rw [show 1 + maxIter - 1 = maxIter from by omega]
  simp [List.map_append, frameOfEvent, List.append_assoc]

theorem max_iterations_terminal_chunk_witness :
    (0 : Nat) < 1 ∧
    (strContains maxIterationsMessage "reached maximum iterations" = true
     ∧ ∃ pre obs succ,
        (agentTurn wTools (fun _ => some [])
          [[StreamChunk.functionCall (some "t") (some "x")]] 1 0).1 =
          OutFrame.startF :: (pre ++
            [OutFrame.observationF obs succ 1,
             OutFrame.chunkF maxIterationsMessage, OutFrame.endOk 0])) :=
  ⟨by decide,
   max_iterations_terminal_chunk wTools (fun _ => some [])
     [[StreamChunk.functionCall (some "t") (some "x")]] 1 0 (by decide)
     (fun i hi => by
       have hi0 : i = 0 := by omega
       subst hi0
       exact ⟨"", "t", "x", fun _ => Except.ok ⟨true, "ok", none⟩,
         ⟨true, "ok", none⟩, by decide, by decide, rfl, rfl⟩)⟩

/-- C2: a cancel frame that arrives after a message frame is read from
the socket only once the whole agent turn has completed, because
handle_connection awaits _handle_user_message inline; by then
self.cancel_event is None again and self.current_agent_task was never
assigned, so the handler sends the normal end frame with a message id for
the turn and then a lone cancel_acknowledged: no cancelled frame and no
end frame with cancelled:true is ever emitted, contrary to the claim. -/
theorem cancel_frame_between_turns :
    handleFrames (fun _ => none) (fun _ => none) 10
        [InFrame.message "hi", InFrame.cancel] [[[StreamChunk.text "Hello"]]] 0 =
      [OutFrame.userMessageSaved 0, OutFrame.startF, OutFrame.chunkF "Hello",
       OutFrame.endOk 1, OutFrame.cancelAcknowledged]
    ∧ List.countP (fun fr => isCancelFrame fr)
        (handleFrames (fun _ => none) (fun _ => none) 10
          [InFrame.message "hi", InFrame.cancel] [[[StreamChunk.text "Hello"]]] 0) = 0
    ∧ List.count OutFrame.cancelAcknowledged
        (handleFrames (fun _ => none) (fun _ => none) 10
          [InFrame.message "hi", InFrame.cancel] [[[StreamChunk.text "Hello"]]] 0) = 1 := by
  decide
